import Mathlib

/-!
Verification development for the MultiplayerMazeGame repository.

The repository contains two cooperating server variants:

* the `GameRoom` / `GameManager` engine (`src/server/src/game/GameManager.ts`
  together with the `GameRoom` and recursive-backtracking `MazeGenerator`
  classes): continuous player coordinates, maze alphabet `0 = WALL`,
  `1 = EMPTY`, win detection by Euclidean distance to the end cell;

* the `SocketHandler` session engine (`SocketHandler.ts`): discrete integer
  player positions, maze alphabet `1 = WALL`, `0 = floor`, `2 = checkpoint`,
  `3 = finish`, `4 = obstacle`, lives/obstacle handling and ability cooldowns.

Both are shallowly embedded below.  JavaScript `Map`s are modelled as
association lists with in-place update (`Map.set` replaces an existing key in
place and appends fresh keys at the end, which matches JS iteration order);
`Math.random()` is modelled by an injected stream `rng : ℕ → ℕ` consumed at a
running counter, with `Math.floor(Math.random() * k)` embedded as
`rng i % k` (an arbitrary value in `[0, k)`); numbers are embedded as `ℤ`/`ℚ`;
2-dimensional `number[][]` grids are embedded as total functions
`ℤ → ℤ → ℕ` read as `maze y x`, with array assignment as pointwise update.
Unbounded recursion/looping in the source is embedded with an explicit fuel
parameter; the theorems below prove the fuel chosen by the embedding is
sufficient wherever that matters.
-/

namespace AListM

/-- Association-list model of a JavaScript `Map`: lookup returns the first
binding of the key (`Map.get`). -/
def lookupA {α : Type} : List (String × α) → String → Option α
  | [], _ => none
  | (k, v) :: t, q => if k = q then some v else lookupA t q

/-- Model of `Map.set`: replace the first binding in place if the key is
present, otherwise append the fresh binding at the end (JS insertion order). -/
def setA {α : Type} : List (String × α) → String → α → List (String × α)
  | [], k, v => [(k, v)]
  | (k', v') :: t, k, v => if k' = k then (k, v) :: t else (k', v') :: setA t k v

/-- Model of `Map.delete`: remove the first binding of the key. -/
def eraseA {α : Type} : List (String × α) → String → List (String × α)
  | [], _ => []
  | (k', v') :: t, k => if k' = k then t else (k', v') :: eraseA t k

/-- Keys of the association list, in iteration order. -/
def keysL {α : Type} (l : List (String × α)) : List String := l.map Prod.fst

/-- The well-formedness invariant of a JS `Map`: keys are pairwise distinct. -/
def NodupKeys {α : Type} (l : List (String × α)) : Prop := (keysL l).Nodup

instance {α : Type} (l : List (String × α)) : Decidable (NodupKeys l) := by
  unfold NodupKeys; infer_instance

end AListM

namespace MG

/-- A `number[][]` maze grid, read as `m y x` (mirroring `maze[y][x]`).
In this variant `0 = WALL` and `1 = EMPTY` (carved path). -/
def Grid := ℤ → ℤ → ℕ

/-- Array assignment `maze[y][x] = v` as a pointwise update. -/
def setCell (m : Grid) (x y : ℤ) (v : ℕ) : Grid :=
  fun b a => if b = y ∧ a = x then v else m b a

/-- The direction list `[[0,-2],[2,0],[0,2],[-2,0]]` (north, east, south, west,
stepping by 2) from `MazeGenerator.recursiveBacktrack`. -/
def dirs4 : List (ℤ × ℤ) := [(0, -2), (2, 0), (0, 2), (-2, 0)]

/-- `MazeGenerator.isValid`: strictly inside the outer wall border. -/
def isValidC (w h x y : ℤ) : Prop := 0 < x ∧ x < w - 1 ∧ 0 < y ∧ y < h - 1

instance (w h x y : ℤ) : Decidable (isValidC w h x y) := by
  unfold isValidC; infer_instance

/-- One Fisher-Yates swap `[array[i], array[j]] = [array[j], array[i]]`. -/
def swapL {α : Type} (l : List α) (i j : ℕ) (d : α) : List α :=
  (l.set i (l.getD j d)).set j (l.getD i d)

/-- The descending loop of `MazeGenerator.shuffle`; the argument `i` is the
loop counter, and `c` indexes into the injected random stream. -/
def fyAux {α : Type} (rng : ℕ → ℕ) (d : α) : ℕ → ℕ → List α → List α × ℕ
  | 0, c, l => (l, c)
  | i + 1, c, l => fyAux rng d i (c + 1) (swapL l (i + 1) (rng c % (i + 2)) d)

/-- `MazeGenerator.shuffle` (in-place Fisher-Yates, `j = ⌊random()*(i+1)⌋`),
returning the shuffled list together with the advanced stream counter. -/
def shuffle (rng : ℕ → ℕ) (c : ℕ) (l : List (ℤ × ℤ)) : List (ℤ × ℤ) × ℕ :=
  fyAux rng (0, 0) (l.length - 1) c l

mutual

/-- `MazeGenerator.recursiveBacktrack(x, y)`: mark the cell as path, shuffle
the four directions, and for each direction whose neighbour (two cells away)
is valid and uncarved, carve the connecting wall and recurse.  The source
recursion is unbounded; `fuel` bounds the recursion depth, and the sufficiency
of the fuel supplied by `generate` is proved below. -/
def rb (w h : ℤ) (rng : ℕ → ℕ) : ℕ → Grid → ℕ → ℤ → ℤ → Grid × ℕ
  | 0, m, c, _, _ => (m, c)
  | fuel + 1, m, c, x, y =>
      let m0 := setCell m x y 1
      let s := shuffle rng c dirs4
      rbGo w h rng fuel s.1 m0 s.2 x y
termination_by fuel _ _ _ _ => (fuel, 0)

/-- The `for (const [dx, dy] of directions)` loop body of
`recursiveBacktrack`, iterating over the shuffled direction list. -/
def rbGo (w h : ℤ) (rng : ℕ → ℕ) : ℕ → List (ℤ × ℤ) → Grid → ℕ → ℤ → ℤ → Grid × ℕ
  | _, [], m, c, _, _ => (m, c)
  | fuel, d :: ds, m, c, x, y =>
      let nx := x + d.1
      let ny := y + d.2
      if isValidC w h nx ny ∧ m ny nx = 0 then
        let m1 := setCell m (x + d.1 / 2) (y + d.2 / 2) 1
        let r := rb w h rng fuel m1 c nx ny
        rbGo w h rng fuel ds r.1 r.2 x y
      else
        rbGo w h rng fuel ds m c x y
termination_by fuel l _ _ _ _ => (fuel, l.length + 1)

end

/-- `MazeGenerator.generate()`: initialize the grid to all walls and carve
from cell `(1, 1)` by recursive backtracking.  The fuel `w * h` strictly
bounds the number of lattice cells, hence the recursion depth. -/
def generate (w h : ℕ) (rng : ℕ → ℕ) : Grid :=
  (rb (w : ℤ) (h : ℤ) rng (w * h) (fun _ _ => 0) 0 1 1).1

/-- The lattice of potential room cells: odd coordinates strictly inside the
border.  `recursiveBacktrack` only ever visits lattice cells. -/
def latticeF (w h : ℤ) : Finset (ℤ × ℤ) :=
  ((Finset.Ico 1 (w - 1)) ×ˢ (Finset.Ico 1 (h - 1))).filter
    (fun c => c.1 % 2 = 1 ∧ c.2 % 2 = 1)

/-- The lattice cells still uncarved in a grid. -/
def unvis (w h : ℤ) (m : Grid) : Finset (ℤ × ℤ) :=
  (latticeF w h).filter (fun c => m c.2 c.1 = 0)

/-- Orthogonal cell adjacency (step of one cell in one axis). -/
def adjacent (a b : ℤ × ℤ) : Prop :=
  (b.1 = a.1 + 1 ∧ b.2 = a.2) ∨ (b.1 = a.1 - 1 ∧ b.2 = a.2) ∨
  (b.1 = a.1 ∧ b.2 = a.2 + 1) ∨ (b.1 = a.1 ∧ b.2 = a.2 - 1)

/-- One step of a path through EMPTY cells: move to an orthogonally adjacent
cell whose grid value is `1`. -/
def emptyStep (m : Grid) (a b : ℤ × ℤ) : Prop :=
  adjacent a b ∧ m b.2 b.1 = 1

/-- Reachability through EMPTY cells (the path required by the spec). -/
def ReachEmpty (m : Grid) (a b : ℤ × ℤ) : Prop :=
  Relation.ReflTransGen (emptyStep m) a b

/-- Connectivity invariant of the carver: every carved cell is reachable from
the entry cell `(1, 1)` through carved cells. -/
def InvConn (m : Grid) : Prop :=
  ∀ c : ℤ × ℤ, m c.2 c.1 = 1 → ReachEmpty m (1, 1) c

/-- Grid monotonicity: all carved cells stay carved. -/
def Mono1 (m m' : Grid) : Prop := ∀ y x, m y x = 1 → m' y x = 1

/-- The carver only ever writes the value `1`. -/
def OnlyWrites1 (m m' : Grid) : Prop := ∀ y x, m' y x = m y x ∨ m' y x = 1

/-- A step in the lattice graph: both end points are lattice cells two apart
in one of the four carving directions. -/
def LatStep (w h : ℤ) (a b : ℤ × ℤ) : Prop :=
  a ∈ latticeF w h ∧ b ∈ latticeF w h ∧
  ∃ d ∈ dirs4, b.1 = a.1 + d.1 ∧ b.2 = a.2 + d.2

/-- The induction statement for `rb`: called on an uncarved lattice cell with
fuel bounding the number of uncarved lattice cells and a connected carved
region (after marking the cell), the carver only adds `1`s, keeps the carved
region connected to `(1, 1)`, and leaves every newly carved lattice cell
with all its in-lattice neighbours carved. -/
def RbSpec (w h : ℤ) (rng : ℕ → ℕ) (fuel : ℕ) : Prop :=
  ∀ (m : Grid) (c : ℕ) (x y : ℤ),
    (x, y) ∈ latticeF w h → m y x = 0 →
    (∀ b a, m b a = 0 ∨ m b a = 1) →
    (unvis w h m).card ≤ fuel → InvConn (setCell m x y 1) →
    Mono1 (setCell m x y 1) (rb w h rng fuel m c x y).1 ∧
    OnlyWrites1 m (rb w h rng fuel m c x y).1 ∧
    InvConn (rb w h rng fuel m c x y).1 ∧
    (∀ p : ℤ × ℤ, p ∈ latticeF w h →
      (rb w h rng fuel m c x y).1 p.2 p.1 = 1 → m p.2 p.1 = 0 →
      ∀ d ∈ dirs4, (p.1 + d.1, p.2 + d.2) ∈ latticeF w h →
      (rb w h rng fuel m c x y).1 (p.2 + d.2) (p.1 + d.1) = 1)

end MG

namespace GR

open AListM

/-- `GameState` from `shared/types/game`. -/
inductive GameState where
  | WAITING
  | STARTING
  | IN_PROGRESS
  | FINISHED
deriving DecidableEq

/-- `Player` from `shared/types/game` (continuous coordinates variant). -/
structure Player where
  id : String
  x : ℚ
  y : ℚ
  angle : ℚ
  color : String
  lives : ℕ
  checkpointsPassed : ℕ
  isAlive : Bool
deriving DecidableEq

/-- `Checkpoint` from `shared/types/game`. -/
structure Checkpoint where
  id : String
  x : ℚ
  y : ℚ
  reached : Bool
deriving DecidableEq

/-- The `GameRoom` class state.  `mazeWidth`/`mazeHeight` mirror the private
fields of the class; `readyPlayers` mirrors the private `Set<string>`. -/
structure Room where
  id : String
  players : List (String × Player)
  maze : MG.Grid
  checkpoints : List Checkpoint
  gameState : GameState
  maxPlayers : ℕ
  startPosition : ℚ × ℚ
  endPosition : ℚ × ℚ
  mazeWidth : ℤ
  mazeHeight : ℤ
  readyPlayers : Finset String

/-- Squared Euclidean distance.  The source compares
`Math.sqrt(dx^2 + dy^2) < 0.5`; since both sides are nonnegative this is
equivalent to `dx^2 + dy^2 < 1/4`, which is how every distance test below is
embedded. -/
def distSq (px py ex ey : ℚ) : ℚ := (px - ex) ^ 2 + (py - ey) ^ 2

/-- `GameRoom.isValidPosition`: floor the continuous coordinates, reject when
outside the grid, and require the cell to be `1` (empty space). -/
def isValidPosition (r : Room) (x y : ℚ) : Prop :=
  0 ≤ Int.floor x ∧ Int.floor x < r.mazeWidth ∧
  0 ≤ Int.floor y ∧ Int.floor y < r.mazeHeight ∧
  r.maze (Int.floor y) (Int.floor x) = 1

instance (r : Room) (x y : ℚ) : Decidable (isValidPosition r x y) := by
  unfold isValidPosition; infer_instance

/-- `GameRoom.checkCheckpointCollision`: walk the checkpoint list in order;
each unreached checkpoint within distance `0.5` of the player is marked
reached and increments the player's `checkpointsPassed`. -/
def checkCheckpointCollision (cps : List Checkpoint) (p : Player) :
    List Checkpoint × Player :=
  match cps with
  | [] => ([], p)
  | cp :: t =>
    if cp.reached = false ∧ distSq p.x p.y cp.x cp.y < 1 / 4 then
      let cp' := { cp with reached := true }
      let p' := { p with checkpointsPassed := p.checkpointsPassed + 1 }
      let rest := checkCheckpointCollision t p'
      (cp' :: rest.1, rest.2)
    else
      let rest := checkCheckpointCollision t p
      (cp :: rest.1, rest.2)

/-- `GameRoom.checkEndCollision`: within distance `0.5` of `endPosition` the
room state is set to `FINISHED` (no state guard in the source). -/
def checkEndCollision (r : Room) (p : Player) : Room :=
  if distSq p.x p.y r.endPosition.1 r.endPosition.2 < 1 / 4 then
    { r with gameState := GameState.FINISHED }
  else r

/-- `GameRoom.updatePlayerPosition`: no-op for a missing or non-alive player;
wall collision (`isValidPosition`) rejects the move leaving the room
untouched; an accepted move writes position and angle and then runs
checkpoint collision followed by end collision. -/
def updatePlayerPosition (r : Room) (playerId : String) (pos : ℚ × ℚ)
    (angle : ℚ) : Room :=
  match lookupA r.players playerId with
  | none => r
  | some player =>
    if player.isAlive = false then r
    else if isValidPosition r pos.1 pos.2 then
      let p1 := { player with x := pos.1, y := pos.2, angle := angle }
      let cc := checkCheckpointCollision r.checkpoints p1
      let r1 := { r with checkpoints := cc.1,
                         players := setA r.players playerId cc.2 }
      checkEndCollision r1 cc.2
    else r

/-- `GameRoom.setPlayerReady`. -/
def setPlayerReady (r : Room) (playerId : String) : Room :=
  { r with readyPlayers := insert playerId r.readyPlayers }

/-- `GameRoom.canStartGame`: enough players and `readyPlayers.size ===
players.size` (a size comparison, not a set comparison, in the source). -/
def canStartGame (minPlayers : ℕ) (r : Room) : Prop :=
  minPlayers ≤ r.players.length ∧ r.readyPlayers.card = r.players.length

instance (minPlayers : ℕ) (r : Room) : Decidable (canStartGame minPlayers r) := by
  unfold canStartGame; infer_instance

/-- `GameRoom.startGame`. -/
def startGame (r : Room) : Room := { r with gameState := GameState.IN_PROGRESS }

/-- `GameRoom.addPlayer`. -/
def addPlayer (r : Room) (p : Player) : Room :=
  { r with players := setA r.players p.id p }

/-- `GameRoom.removePlayer`: deletes the player from the player map and from
the ready set. -/
def removePlayer (r : Room) (playerId : String) : Room :=
  { r with players := eraseA r.players playerId,
           readyPlayers := r.readyPlayers.erase playerId }

/-- `GameRoom.getWinnerId`: the first player (in map iteration order) within
distance `0.5` of the end position. -/
def getWinnerId (r : Room) : Option String :=
  (r.players.find? fun kp =>
    decide (distSq kp.2.x kp.2.y r.endPosition.1 r.endPosition.2 < 1 / 4)).map
    Prod.fst

/-- Condition rejecting a candidate checkpoint cell in
`GameRoom.generateCheckpoints`: wall, start, end, or an existing
checkpoint. -/
def cpBad (maze : MG.Grid) (w h : ℤ) (acc : List Checkpoint) (x y : ℤ) : Prop :=
  maze y x = 0 ∨ (x = 1 ∧ y = 1) ∨ (x = w - 2 ∧ y = h - 2) ∨
    ∃ cp ∈ acc, cp.x = (x : ℚ) ∧ cp.y = (y : ℚ)

instance (maze : MG.Grid) (w h : ℤ) (acc : List Checkpoint) (x y : ℤ) :
    Decidable (cpBad maze w h acc x y) := by
  unfold cpBad; infer_instance

/-- The `do … while` retry loop of `GameRoom.generateCheckpoints`, embedded
with fuel (the source retries unboundedly; exhausted fuel yields `none`). -/
def cpPick (maze : MG.Grid) (w h : ℤ) (acc : List Checkpoint) (rng : ℕ → ℕ) :
    ℕ → ℕ → Option ((ℤ × ℤ) × ℕ)
  | 0, _ => none
  | f + 1, c =>
    let x : ℤ := ((rng c % (w - 2).toNat : ℕ) : ℤ) + 1
    let y : ℤ := ((rng (c + 1) % (h - 2).toNat : ℕ) : ℤ) + 1
    if cpBad maze w h acc x y then cpPick maze w h acc rng f (c + 2)
    else some ((x, y), c + 2)

/-- The outer `for` loop of `GameRoom.generateCheckpoints`. -/
def genCpAux (maze : MG.Grid) (w h : ℤ) (rng : ℕ → ℕ) :
    ℕ → ℕ → List Checkpoint → List Checkpoint × ℕ
  | 0, c, acc => (acc, c)
  | i + 1, c, acc =>
    match cpPick maze w h acc rng ((w * h).toNat + 1) c with
    | none => genCpAux maze w h rng i c acc
    | some ((x, y), c') =>
      genCpAux maze w h rng i c'
        (acc ++ [{ id := "cp" ++ toString i, x := (x : ℚ), y := (y : ℚ),
                   reached := false }])

/-- `GameRoom.generateCheckpoints`: `⌊w*h/100⌋` checkpoints on random free
cells distinct from start, end and each other. -/
def generateCheckpoints (maze : MG.Grid) (w h : ℤ) (rng : ℕ → ℕ) (c : ℕ) :
    List Checkpoint × ℕ :=
  genCpAux maze w h rng ((w * h).toNat / 100) c []

/-- Configuration read from the environment by the `GameManager` /
`GameRoom` constructors (`MAZE_WIDTH`, `MAZE_HEIGHT`,
`MAX_PLAYERS_PER_GAME`, `MIN_PLAYERS_PER_GAME`). -/
structure Config where
  maxPlayers : ℕ
  minPlayers : ℕ
  mazeWidth : ℕ
  mazeHeight : ℕ

/-- The `GameRoom` constructor: generate the maze, set
`startPosition = (1,1)` and `endPosition = (w-2, h-2)`, generate
checkpoints, start in `WAITING`. -/
def newGameRoom (cfg : Config) (id : String) (rng : ℕ → ℕ) : Room :=
  let w := cfg.mazeWidth
  let h := cfg.mazeHeight
  let g := MG.rb (w : ℤ) (h : ℤ) rng (w * h) (fun _ _ => 0) 0 1 1
  { id := id
    players := []
    maze := g.1
    checkpoints := (generateCheckpoints g.1 (w : ℤ) (h : ℤ) rng g.2).1
    gameState := GameState.WAITING
    maxPlayers := cfg.maxPlayers
    startPosition := (1, 1)
    endPosition := ((w : ℚ) - 2, (h : ℚ) - 2)
    mazeWidth := (w : ℤ)
    mazeHeight := (h : ℤ)
    readyPlayers := ∅ }

/-- The mutable state of the `GameManager`: the room map and the
`playerId → roomId` directory. -/
structure ManagerState where
  gameRooms : List (String × Room)
  playerRooms : List (String × String)

/-- The fixed color palette of `GameManager.generatePlayerColor`. -/
def playerColors : List String :=
  ["#FF6B6B", "#4ECDC4", "#45B7D1", "#96CEB4",
   "#FECA57", "#FF9FF3", "#54A0FF", "#5F27CD"]

/-- `GameManager.generatePlayerColor`. -/
def generatePlayerColor (playerIndex : ℕ) : String :=
  playerColors.getD (playerIndex % playerColors.length) ""

/-- The player literal constructed in `GameManager.handleJoinGame`: spawned
at the room's start position with 3 lives, alive. -/
def mkJoinPlayer (pid : String) (room : Room) : Player :=
  { id := pid
    x := room.startPosition.1
    y := room.startPosition.2
    angle := 0
    color := generatePlayerColor room.players.length
    lives := 3
    checkpointsPassed := 0
    isAlive := true }

/-- `GameManager.findAvailableRoom`: first room (iteration order) that is
below capacity and `WAITING`. -/
def findAvailableRoom (rooms : List (String × Room)) : Option (String × Room) :=
  rooms.find? fun kr =>
    decide (kr.2.players.length < kr.2.maxPlayers ∧
            kr.2.gameState = GameState.WAITING)

/-- The `findAvailableRoom() || createNewRoom()` branch of
`GameManager.handleJoinGame`; creating a room registers it immediately.
`newRoomId` stands for the fresh `uuidv4()`. -/
def joinFallback (cfg : Config) (s : ManagerState) (newRoomId : String)
    (rng : ℕ → ℕ) : ManagerState × String × Room :=
  match findAvailableRoom s.gameRooms with
  | some kr => (s, kr.1, kr.2)
  | none =>
    let room := newGameRoom cfg newRoomId rng
    ({ s with gameRooms := setA s.gameRooms newRoomId room }, newRoomId, room)

/-- The room-resolution step of `GameManager.handleJoinGame`: an explicit
room id that exists is used directly (no state check); otherwise fall back
to find-or-create. -/
def chooseRoom (cfg : Config) (s : ManagerState) (ridOpt : Option String)
    (newRoomId : String) (rng : ℕ → ℕ) : ManagerState × String × Room :=
  match ridOpt with
  | some rid =>
    match lookupA s.gameRooms rid with
    | some room => (s, rid, room)
    | none => joinFallback cfg s newRoomId rng
  | none => joinFallback cfg s newRoomId rng

/-- `GameManager.handleJoinGame`: resolve the room, then reject with a
"Room is full" error only at capacity (leaving the state otherwise
unchanged, apart from a room created by the fallback, which stays
registered); otherwise the new player is added to the room and to the
directory. -/
def handleJoinGame (cfg : Config) (s : ManagerState) (pid : String)
    (ridOpt : Option String) (newRoomId : String) (rng : ℕ → ℕ) :
    ManagerState :=
  let chosen := chooseRoom cfg s ridOpt newRoomId rng
  let s1 := chosen.1
  let rid := chosen.2.1
  let room := chosen.2.2
  if room.maxPlayers ≤ room.players.length then s1
  else
    let room1 := addPlayer room (mkJoinPlayer pid room)
    { gameRooms := setA s1.gameRooms rid room1
      playerRooms := setA s1.playerRooms pid rid }

/-- `GameManager.handlePlayerMove`: silently ignore unknown players, unknown
rooms and rooms that are not `IN_PROGRESS`; otherwise delegate to
`GameRoom.updatePlayerPosition`. -/
def handlePlayerMove (s : ManagerState) (pid : String) (pos : ℚ × ℚ)
    (angle : ℚ) : ManagerState :=
  match lookupA s.playerRooms pid with
  | none => s
  | some rid =>
    match lookupA s.gameRooms rid with
    | none => s
    | some room =>
      if room.gameState ≠ GameState.IN_PROGRESS then s
      else
        let room1 := updatePlayerPosition room pid pos angle
        { s with gameRooms := setA s.gameRooms rid room1 }

/-- `GameManager.handlePlayerReady`: mark ready, then start the game if
`canStartGame()` holds (no room-state guard in the source). -/
def handlePlayerReady (minPlayers : ℕ) (s : ManagerState) (pid : String) :
    ManagerState :=
  match lookupA s.playerRooms pid with
  | none => s
  | some rid =>
    match lookupA s.gameRooms rid with
    | none => s
    | some room =>
      let room1 := setPlayerReady room pid
      let room2 := if canStartGame minPlayers room1 then startGame room1
                   else room1
      { s with gameRooms := setA s.gameRooms rid room2 }

/-- `GameManager.handleLeaveGame` (also the disconnect handler): remove the
player from room and directory, and delete the room when it became empty. -/
def handleLeaveGame (s : ManagerState) (pid : String) : ManagerState :=
  match lookupA s.playerRooms pid with
  | none => s
  | some rid =>
    match lookupA s.gameRooms rid with
    | none => s
    | some room =>
      let room1 := removePlayer room pid
      let pr := eraseA s.playerRooms pid
      if room1.players.length = 0 then
        { gameRooms := eraseA s.gameRooms rid, playerRooms := pr }
      else
        { gameRooms := setA s.gameRooms rid room1, playerRooms := pr }

end GR

namespace SH

open AListM

/-- Player status in the `SocketHandler` session variant. -/
inductive PStatus where
  | alive
  | dead
  | finished
  | spectating
deriving DecidableEq

/-- `Ability` from `server/src/types/Game.ts` (the `type` and `effectData`
fields are never read by the handlers embedded here and are omitted). -/
structure Ability where
  id : String
  name : String
  description : String
  cooldownMs : ℤ
deriving DecidableEq

/-- `Player` from `server/src/types/Game.ts` (discrete positions variant). -/
structure PlayerB where
  id : String
  position : ℤ × ℤ
  facing : ℚ
  lives : ℤ
  eliminations : ℕ
  checkpointsReached : ℕ
  status : PStatus
  abilities : List Ability
  activeCooldowns : List (String × ℤ)
  lastCheckpointPosition : ℤ × ℤ
deriving DecidableEq

/-- The part of a `GameSession` read by the movement/ability handlers.
`mazeWidth`/`mazeHeight` stand for `session.maze[0].length` /
`session.maze.length`.  Maze alphabet: `1 = WALL`, `0 = floor`,
`2 = checkpoint`, `3 = finish`, `4 = obstacle`. -/
structure Session where
  id : String
  players : List (String × PlayerB)
  maze : MG.Grid
  mazeWidth : ℤ
  mazeHeight : ℤ
  status : String

/-- `SocketHandler.handleObstacleInteraction`: decrement `lives`; at
`lives <= 0` the player dies, otherwise the player respawns at the last
checkpoint position. -/
def handleObstacleInteraction (p : PlayerB) : PlayerB :=
  let p1 := { p with lives := p.lives - 1 }
  if p1.lives ≤ 0 then { p1 with status := PStatus.dead }
  else { p1 with position := p1.lastCheckpointPosition }

/-- `SocketHandler.checkTileInteraction`: dispatch on the tile value under
the new position. -/
def checkTileInteraction (sess : Session) (p : PlayerB) (x y : ℤ) : PlayerB :=
  if sess.maze y x = 2 then
    { p with checkpointsReached := p.checkpointsReached + 1,
             lastCheckpointPosition := (x, y) }
  else if sess.maze y x = 3 then { p with status := PStatus.finished }
  else if sess.maze y x = 4 then handleObstacleInteraction p
  else p

/-- The `socket.on('move')` handler: clamp the target to the grid, reject
wall cells (`maze[newY][newX] !== 1`), move and run the tile interaction.
Missing or non-alive players are silently ignored. -/
def move (sess : Session) (pid : String) (dx dy : ℤ) : Session :=
  match lookupA sess.players pid with
  | none => sess
  | some player =>
    if player.status ≠ PStatus.alive then sess
    else
      let newX := max 0 (min (sess.mazeWidth - 1) (player.position.1 + dx))
      let newY := max 0 (min (sess.mazeHeight - 1) (player.position.2 + dy))
      if sess.maze newY newX ≠ 1 then
        let p1 := { player with position := (newX, newY) }
        let p2 := checkTileInteraction sess p1 newX newY
        { sess with players := setA sess.players pid p2 }
      else sess

/-- The stepping loop of `SocketHandler.handleTeleport`: up to `range` single
cell steps toward the target, stopping at the first out-of-grid or wall
cell. -/
def teleStep (sess : Session) (dx dy : ℤ) : ℕ → ℤ × ℤ → ℤ × ℤ
  | 0, pos => pos
  | n + 1, pos =>
    let tx := pos.1 + dx
    let ty := pos.2 + dy
    if 0 ≤ tx ∧ tx < sess.mazeWidth ∧ 0 ≤ ty ∧ ty < sess.mazeHeight ∧
        sess.maze ty tx ≠ 1 then
      teleStep sess dx dy n (tx, ty)
    else pos

/-- `SocketHandler.handleTeleport` (`range = 3`). -/
def handleTeleport (sess : Session) (p : PlayerB) (target : ℤ × ℤ) : PlayerB :=
  let dx := Int.sign (target.1 - p.position.1)
  let dy := Int.sign (target.2 - p.position.2)
  { p with position := teleStep sess dx dy 3 p.position }

/-- `SocketHandler.handleAbilityUse`: unknown abilities are ignored; a call
before the cooldown expiry (`Date.now() < cooldownEnd`, with `0` for an
absent entry) is a complete no-op; otherwise the cooldown entry is written
(`now + ability.cooldownMs`) and only the `Teleport` ability has a further
mechanical effect. -/
def handleAbilityUse (sess : Session) (pid : String) (p : PlayerB)
    (abilityId : String) (target : ℤ × ℤ) (now : ℤ) : Session :=
  match p.abilities.find? (fun a => a.id == abilityId) with
  | none => sess
  | some ability =>
    let cooldownEnd := (lookupA p.activeCooldowns abilityId).getD 0
    if now < cooldownEnd then sess
    else
      let cds := setA p.activeCooldowns abilityId (now + ability.cooldownMs)
      let p1 := { p with activeCooldowns := cds }
      let p2 := if ability.name = "Teleport" then handleTeleport sess p1 target
                else p1
      { sess with players := setA sess.players pid p2 }

/-- The `socket.on('useAbility')` handler: missing or non-alive players are
silently ignored, then `handleAbilityUse` runs. -/
def useAbility (sess : Session) (pid : String) (abilityId : String)
    (target : ℤ × ℤ) (now : ℤ) : Session :=
  match lookupA sess.players pid with
  | none => sess
  | some p =>
    if p.status ≠ PStatus.alive then sess
    else handleAbilityUse sess pid p abilityId target now

end SH

namespace GR

open AListM

/-- Internal consistency of the session directory (the property of claim C8):
a player id occurs in some room's player map exactly when the directory maps
it to that room. -/
def DirConsistent (s : ManagerState) : Prop :=
  (∀ pid rid, lookupA s.playerRooms pid = some rid →
    ∃ room, lookupA s.gameRooms rid = some room ∧
      (lookupA room.players pid).isSome = true) ∧
  (∀ rid room pid p, lookupA s.gameRooms rid = some room →
    lookupA room.players pid = some p →
    lookupA s.playerRooms pid = some rid)

/-- Well-formedness of the manager maps: all key sets are duplicate free
(always true of JavaScript `Map`s). -/
def WfState (s : ManagerState) : Prop :=
  NodupKeys s.gameRooms ∧ NodupKeys s.playerRooms ∧
  ∀ rid room, lookupA s.gameRooms rid = some room → NodupKeys room.players

/-- Manager states reachable from the initial empty state by the socket
handlers.  The join step carries two freshness side conditions: the joining
player id is not already in the directory (the amended claim C8), and the
fresh `uuidv4()` room id does not collide with an existing room. -/
inductive Reachable (cfg : Config) : ManagerState → Prop where
  | init : Reachable cfg ⟨[], []⟩
  | join (s : ManagerState) (pid : String) (ridOpt : Option String)
      (newId : String) (rng : ℕ → ℕ) : Reachable cfg s →
      lookupA s.playerRooms pid = none →
      lookupA s.gameRooms newId = none →
      Reachable cfg (handleJoinGame cfg s pid ridOpt newId rng)
  | ready (s : ManagerState) (pid : String) : Reachable cfg s →
      Reachable cfg (handlePlayerReady cfg.minPlayers s pid)
  | mv (s : ManagerState) (pid : String) (pos : ℚ × ℚ) (angle : ℚ) :
      Reachable cfg s → Reachable cfg (handlePlayerMove s pid pos angle)
  | leave (s : ManagerState) (pid : String) : Reachable cfg s →
      Reachable cfg (handleLeaveGame s pid)

end GR


namespace AListM

theorem lookupA_mem {α : Type} {l : List (String × α)} {k : String} {v : α}
    (h : lookupA l k = some v) : (k, v) ∈ l := by
  induction l with
  | nil => simp [lookupA] at h
  | cons p t ih =>
    obtain ⟨k', v'⟩ := p
    simp only [lookupA] at h
    by_cases hk : k' = k
    · rw [if_pos hk] at h
      obtain rfl := Option.some.inj h
      subst hk
      exact List.mem_cons_self _ _
    · rw [if_neg hk] at h
      exact List.mem_cons_of_mem _ (ih h)

theorem lookupA_eq_none_of_not_mem {α : Type} {l : List (String × α)} {k : String}
    (h : k ∉ keysL l) : lookupA l k = none := by
  induction l with
  | nil => rfl
  | cons p t ih =>
    obtain ⟨k', v'⟩ := p
    simp only [keysL, List.map_cons, List.mem_cons, not_or] at h
    simp only [lookupA, if_neg (fun hh : k' = k => h.1 hh.symm)]
    exact ih h.2

theorem lookupA_isSome_iff {α : Type} {l : List (String × α)} {k : String} :
    (lookupA l k).isSome = true ↔ k ∈ keysL l := by
  induction l with
  | nil => simp [lookupA, keysL]
  | cons p t ih =>
    obtain ⟨k', v'⟩ := p
    by_cases hk : k' = k
    · subst hk
      simp [lookupA, keysL]
    · simp only [lookupA, if_neg hk, keysL, List.map_cons, List.mem_cons]
      rw [ih]
      constructor
      · intro h; exact Or.inr h
      · rintro (h | h)
        · exact absurd h.symm hk
        · exact h

theorem mem_lookupA {α : Type} {l : List (String × α)} {k : String} {v : α}
    (hnd : NodupKeys l) (h : (k, v) ∈ l) : lookupA l k = some v := by
  induction l with
  | nil => simp at h
  | cons p t ih =>
    obtain ⟨k', v'⟩ := p
    have hnd' : NodupKeys t := (List.nodup_cons.mp hnd).2
    rcases List.mem_cons.mp h with h1 | h1
    · rw [Prod.mk.injEq] at h1
      obtain ⟨hk, hv⟩ := h1
      subst hk
      subst hv
      simp [lookupA]
    · have hk : k' ≠ k := by
        rintro rfl
        have hmem : k' ∈ keysL t := List.mem_map.mpr ⟨(k', v), h1, rfl⟩
        exact (List.nodup_cons.mp hnd).1 hmem
      simp only [lookupA, if_neg hk]
      exact ih hnd' h1

theorem lookupA_setA_self {α : Type} (l : List (String × α)) (k : String) (v : α) :
    lookupA (setA l k v) k = some v := by
  induction l with
  | nil => simp [setA, lookupA]
  | cons p t ih =>
    obtain ⟨k', v'⟩ := p
    by_cases hk : k' = k
    · simp [setA, hk, lookupA]
    · simp [setA, hk, lookupA, ih]

theorem lookupA_setA_ne {α : Type} (l : List (String × α)) (k q : String) (v : α)
    (h : q ≠ k) : lookupA (setA l k v) q = lookupA l q := by
  induction l with
  | nil => simp [setA, lookupA, Ne.symm h]
  | cons p t ih =>
    obtain ⟨k', v'⟩ := p
    by_cases hk : k' = k
    · subst hk
      simp [setA, lookupA, Ne.symm h]
    · simp [setA, hk, lookupA, ih]

theorem lookupA_eraseA_ne {α : Type} (l : List (String × α)) (k q : String)
    (h : q ≠ k) : lookupA (eraseA l k) q = lookupA l q := by
  induction l with
  | nil => rfl
  | cons p t ih =>
    obtain ⟨k', v'⟩ := p
    by_cases hk : k' = k
    · subst hk
      simp [eraseA, lookupA, Ne.symm h]
    · simp [eraseA, hk, lookupA, ih]

theorem lookupA_eraseA_self {α : Type} {l : List (String × α)} {k : String}
    (hnd : NodupKeys l) : lookupA (eraseA l k) k = none := by
  induction l with
  | nil => rfl
  | cons p t ih =>
    obtain ⟨k', v'⟩ := p
    by_cases hk : k' = k
    · subst hk
      simp only [eraseA, if_pos rfl]
      exact lookupA_eq_none_of_not_mem (List.nodup_cons.mp hnd).1
    · simp only [eraseA, if_neg hk, lookupA, if_neg hk]
      exact ih (List.nodup_cons.mp hnd).2

theorem keysL_setA_subset {α : Type} (l : List (String × α)) (k : String) (v : α) :
    ∀ q, q ∈ keysL (setA l k v) → q = k ∨ q ∈ keysL l := by
  induction l with
  | nil => intro q hq; simp [setA, keysL] at hq; exact Or.inl hq
  | cons p t ih =>
    obtain ⟨k', v'⟩ := p
    intro q hq
    by_cases hk : k' = k
    · subst hk
      simp [setA, keysL] at hq ⊢
      tauto
    · simp only [setA, if_neg hk, keysL, List.map_cons, List.mem_cons] at hq ⊢
      rcases hq with hq | hq
      · exact Or.inr (Or.inl hq)
      · rcases ih q hq with h | h
        · exact Or.inl h
        · exact Or.inr (Or.inr h)

theorem nodupKeys_setA {α : Type} {l : List (String × α)} (k : String) (v : α)
    (hnd : NodupKeys l) : NodupKeys (setA l k v) := by
  induction l with
  | nil => simp [setA, NodupKeys, keysL]
  | cons p t ih =>
    obtain ⟨k', v'⟩ := p
    have h1 := (List.nodup_cons.mp hnd).1
    have h2 := (List.nodup_cons.mp hnd).2
    by_cases hk : k' = k
    · subst hk
      simpa [setA, NodupKeys, keysL] using hnd
    · simp only [setA, if_neg hk, NodupKeys, keysL, List.map_cons, List.nodup_cons]
      constructor
      · intro hmem
        rcases keysL_setA_subset t k v k' hmem with h | h
        · exact hk h
        · exact h1 h
      · exact ih h2

theorem keysL_eraseA_subset {α : Type} (l : List (String × α)) (k : String) :
    ∀ q, q ∈ keysL (eraseA l k) → q ∈ keysL l := by
  induction l with
  | nil => intro q hq; simp [eraseA, keysL] at hq
  | cons p t ih =>
    obtain ⟨k', v'⟩ := p
    intro q hq
    by_cases hk : k' = k
    · simp only [eraseA, if_pos hk] at hq
      simp only [keysL, List.map_cons, List.mem_cons]
      exact Or.inr hq
    · simp only [eraseA, if_neg hk, keysL, List.map_cons, List.mem_cons] at hq ⊢
      rcases hq with hq | hq
      · exact Or.inl hq
      · exact Or.inr (ih q hq)

theorem nodupKeys_eraseA {α : Type} {l : List (String × α)} (k : String)
    (hnd : NodupKeys l) : NodupKeys (eraseA l k) := by
  induction l with
  | nil => simp [eraseA, NodupKeys, keysL]
  | cons p t ih =>
    obtain ⟨k', v'⟩ := p
    have h1 := (List.nodup_cons.mp hnd).1
    have h2 := (List.nodup_cons.mp hnd).2
    by_cases hk : k' = k
    · simpa [eraseA, hk] using h2
    · simp only [eraseA, if_neg hk, NodupKeys, keysL, List.map_cons, List.nodup_cons]
      exact ⟨fun hmem => h1 (keysL_eraseA_subset t k k' hmem), ih h2⟩

theorem setA_self_eq {α : Type} {l : List (String × α)} {k : String} {v : α}
    (h : lookupA l k = some v) : setA l k v = l := by
  induction l with
  | nil => simp [lookupA] at h
  | cons p t ih =>
    obtain ⟨k', v'⟩ := p
    simp only [lookupA] at h
    by_cases hk : k' = k
    · rw [if_pos hk] at h
      obtain rfl := Option.some.inj h
      subst hk
      simp [setA]
    · rw [if_neg hk] at h
      simp [setA, hk, ih h]

theorem find?_setA_first {α : Type} {l : List (String × α)} {k : String} {v : α}
    (P : String × α → Bool) (hnd : NodupKeys l)
    (hk : (lookupA l k).isSome = true) (hPv : P (k, v) = true)
    (hother : ∀ q w, q ≠ k → lookupA l q = some w → P (q, w) = false) :
    (setA l k v).find? P = some (k, v) := by
  induction l with
  | nil => simp [lookupA] at hk
  | cons p t ih =>
    obtain ⟨k', v'⟩ := p
    by_cases hkk : k' = k
    · subst hkk
      have hs : setA ((k', v') :: t) k' v = (k', v) :: t := by simp [setA]
      rw [hs, List.find?_cons_of_pos _ hPv]
    · have hlk' : lookupA ((k', v') :: t) k' = some v' := by simp [lookupA]
      have hP' : P (k', v') = false := hother k' v' hkk hlk'
      have hs : setA ((k', v') :: t) k v = (k', v') :: setA t k v := by
        simp [setA, hkk]
      rw [hs, List.find?_cons_of_neg _ (by simp [hP'])]
      apply ih (List.nodup_cons.mp hnd).2
      · simpa [lookupA, hkk] using hk
      · intro q w hq hw
        apply hother q w hq
        have hqk' : q ≠ k' := by
          rintro rfl
          have hnm : q ∉ keysL t := (List.nodup_cons.mp hnd).1
          rw [lookupA_eq_none_of_not_mem hnm] at hw
          exact Option.noConfusion hw
        simp only [lookupA, if_neg (fun h : k' = q => hqk' h.symm)]
        exact hw

end AListM
namespace MG

/-- Claim C9: maze generation is a deterministic function of its parameters
and the injected random source; two runs of `generate` with the same source
and dimensions produce identical grids.  In this embedding `Math.random` is
threaded explicitly as the `rng` stream, so the generation API accepts an
injectable random source and determinism holds by purity. -/
theorem C9_generate_deterministic (w h : ℕ) (rng₁ rng₂ : ℕ → ℕ)
    (hsame : ∀ i, rng₁ i = rng₂ i) :
    generate w h rng₁ = generate w h rng₂ := by
  have h12 : rng₁ = rng₂ := funext hsame
  rw [h12]

/-- Witness for C9 at concrete parameters. -/
theorem C9_witness :
    (∀ i : ℕ, (fun _ : ℕ => 0) i = (fun _ : ℕ => 0) i) ∧
    generate 15 15 (fun _ => 0) = generate 15 15 (fun _ => 0) :=
  ⟨fun _ => rfl, C9_generate_deterministic 15 15 _ _ (fun _ => rfl)⟩

end MG

namespace SH

open AListM

/-- Claim C7: for a `useAbility` call at time `now` on an ability present in
the player's ability list, a call with `now` strictly before the cooldown
expiry (an absent cooldown entry counts as `0`, so a first use always
passes) changes no state at all, and otherwise the cooldown entry is set to
`now + ability.cooldownMs`. -/
theorem C7_useAbility_cooldown (sess : Session) (pid : String) (p : PlayerB)
    (abilityId : String) (target : ℤ × ℤ) (now : ℤ) (ability : Ability)
    (hfind : p.abilities.find? (fun a => a.id == abilityId) = some ability) :
    (now < (lookupA p.activeCooldowns abilityId).getD 0 →
      handleAbilityUse sess pid p abilityId target now = sess) ∧
    (¬ now < (lookupA p.activeCooldowns abilityId).getD 0 →
      ∃ q, lookupA (handleAbilityUse sess pid p abilityId target now).players
            pid = some q ∧
        lookupA q.activeCooldowns abilityId = some (now + ability.cooldownMs)) := by
  constructor
  · intro h
    simp only [handleAbilityUse, hfind, if_pos h]
  · intro h
    simp only [handleAbilityUse, hfind, if_neg h]
    refine ⟨_, lookupA_setA_self .., ?_⟩
    by_cases hname : ability.name = "Teleport"
    · rw [if_pos hname]
      show lookupA (setA p.activeCooldowns abilityId (now + ability.cooldownMs))
        abilityId = some (now + ability.cooldownMs)
      exact lookupA_setA_self ..
    · rw [if_neg hname]
      exact lookupA_setA_self ..

/-- Concrete ability for the C7 witness. -/
def C7exAbility : Ability :=
  { id := "blink", name := "Blink", description := "", cooldownMs := 5000 }

/-- Concrete player for the C7 witness. -/
def C7exPlayer : PlayerB :=
  { id := "p", position := (1, 1), facing := 0, lives := 3, eliminations := 0,
    checkpointsReached := 0, status := PStatus.alive,
    abilities := [C7exAbility], activeCooldowns := [("blink", 200)],
    lastCheckpointPosition := (1, 1) }

/-- Concrete session for the C7 witness. -/
def C7exSession : Session :=
  { id := "s", players := [("p", C7exPlayer)], maze := fun _ _ => 0,
    mazeWidth := 5, mazeHeight := 5, status := "in_progress" }

/-- Witness for C7: a call at `now = 100` against a cooldown expiring at
`200` leaves the session unchanged. -/
theorem C7_witness :
    C7exPlayer.abilities.find? (fun a => a.id == "blink") = some C7exAbility ∧
    (100 : ℤ) < (lookupA C7exPlayer.activeCooldowns "blink").getD 0 ∧
    handleAbilityUse C7exSession "p" C7exPlayer "blink" (0, 0) 100 =
      C7exSession :=
  ⟨by decide, by decide,
    (C7_useAbility_cooldown C7exSession "p" C7exPlayer "blink" (0, 0) 100
      C7exAbility (by decide)).1 (by decide)⟩

end SH


namespace SH

open AListM

theorem move_eq_of_not_alive (sess : Session) (pid : String) (dx dy : ℤ)
    (p : PlayerB) (hp : lookupA sess.players pid = some p)
    (hal : p.status ≠ PStatus.alive) : move sess pid dx dy = sess := by
  unfold move
  rw [hp]
  simp [hal]

theorem move_eq_of_wall (sess : Session) (pid : String) (dx dy : ℤ)
    (p : PlayerB) (hp : lookupA sess.players pid = some p)
    (hal : p.status = PStatus.alive)
    (hwall : sess.maze (max 0 (min (sess.mazeHeight - 1) (p.position.2 + dy)))
      (max 0 (min (sess.mazeWidth - 1) (p.position.1 + dx))) = 1) :
    move sess pid dx dy = sess := by
  unfold move
  rw [hp]
  simp [hal, hwall]

theorem move_eq_of_accept (sess : Session) (pid : String) (dx dy : ℤ)
    (p : PlayerB) (hp : lookupA sess.players pid = some p)
    (hal : p.status = PStatus.alive)
    (hwall : sess.maze (max 0 (min (sess.mazeHeight - 1) (p.position.2 + dy)))
      (max 0 (min (sess.mazeWidth - 1) (p.position.1 + dx))) ≠ 1) :
    move sess pid dx dy =
      { sess with players := setA sess.players pid (checkTileInteraction sess
          { p with position := (max 0 (min (sess.mazeWidth - 1)
              (p.position.1 + dx)), max 0 (min (sess.mazeHeight - 1)
              (p.position.2 + dy))) }
          (max 0 (min (sess.mazeWidth - 1) (p.position.1 + dx)))
          (max 0 (min (sess.mazeHeight - 1) (p.position.2 + dy)))) } := by
  unfold move
  rw [hp]
  simp [hal, hwall]

end SH


namespace SH

open AListM

theorem handleObstacle_spec (p : PlayerB) :
    (handleObstacleInteraction p).lives = p.lives - 1 ∧
    (p.lives - 1 ≤ 0 → (handleObstacleInteraction p).status = PStatus.dead) ∧
    (¬ p.lives - 1 ≤ 0 → (handleObstacleInteraction p).status = p.status ∧
      (handleObstacleInteraction p).position = p.lastCheckpointPosition) := by
  unfold handleObstacleInteraction
  by_cases h : p.lives - 1 ≤ 0
  · simp [h]
  · simp [h]

theorem checkTile_obstacle (sess : Session) (p : PlayerB) (x y : ℤ)
    (h4 : sess.maze y x = 4) :
    checkTileInteraction sess p x y = handleObstacleInteraction p := by
  unfold checkTileInteraction
  simp [h4]

theorem checkTile_cases (sess : Session) (p : PlayerB) (x y : ℤ) :
    ((checkTileInteraction sess p x y).lives = p.lives ∧
      ((checkTileInteraction sess p x y).status = p.status ∨
       (checkTileInteraction sess p x y).status = PStatus.finished)) ∨
    checkTileInteraction sess p x y = handleObstacleInteraction p := by
  unfold checkTileInteraction
  by_cases t2 : sess.maze y x = 2
  · simp [t2]
  · by_cases t3 : sess.maze y x = 3
    · simp [t2, t3]
    · by_cases t4 : sess.maze y x = 4
      · simp [t2, t3, t4]
      · simp [t2, t3, t4]

theorem checkTile_inv (sess : Session) (p : PlayerB) (x y : ℤ)
    (hl1 : 1 ≤ p.lives) :
    0 ≤ (checkTileInteraction sess p x y).lives ∧
    ((checkTileInteraction sess p x y).status = PStatus.alive →
      1 ≤ (checkTileInteraction sess p x y).lives) := by
  rcases checkTile_cases sess p x y with ⟨hl, _⟩ | heq
  · constructor
    · rw [hl]; omega
    · intro _; rw [hl]; exact hl1
  · obtain ⟨hl, hd, hr⟩ := handleObstacle_spec p
    rw [heq]
    by_cases hz : p.lives - 1 ≤ 0
    · constructor
      · rw [hl]; omega
      · intro hcon
        rw [hd hz] at hcon
        exact absurd hcon (by simp)
    · constructor
      · rw [hl]; omega
      · intro _; rw [hl]; omega

/-- Claim C6: an alive player moving onto an obstacle tile loses exactly one
life; at zero lives the player's status becomes dead, otherwise the player
respawns at `lastCheckpointPosition`; lives never become negative (the
life/aliveness invariant is preserved); and every move for a player that is
not alive is a no-op. -/
theorem C6_obstacle_lives (sess : Session) (pid : String) (dx dy : ℤ)
    (p : PlayerB)
    (hp : lookupA sess.players pid = some p)
    (hinv : ∀ q pq, lookupA sess.players q = some pq →
      0 ≤ pq.lives ∧ (pq.status = PStatus.alive → 1 ≤ pq.lives)) :
    (p.status = PStatus.alive →
      sess.maze (max 0 (min (sess.mazeHeight - 1) (p.position.2 + dy)))
        (max 0 (min (sess.mazeWidth - 1) (p.position.1 + dx))) = 4 →
      ∃ p2, lookupA (move sess pid dx dy).players pid = some p2 ∧
        p2.lives = p.lives - 1 ∧
        (p2.lives = 0 → p2.status = PStatus.dead) ∧
        (p2.lives ≠ 0 → p2.status = PStatus.alive ∧
          p2.position = p.lastCheckpointPosition)) ∧
    (∀ q pq, lookupA (move sess pid dx dy).players q = some pq →
      0 ≤ pq.lives ∧ (pq.status = PStatus.alive → 1 ≤ pq.lives)) ∧
    (p.status ≠ PStatus.alive → move sess pid dx dy = sess) := by
  have hInvP := hinv pid p hp
  by_cases hal : p.status = PStatus.alive
  · have hlives1 : 1 ≤ p.lives := hInvP.2 hal
    refine ⟨?_, ?_, fun hcon => absurd hal hcon⟩
    · intro _ htile
      have hwall : sess.maze
          (max 0 (min (sess.mazeHeight - 1) (p.position.2 + dy)))
          (max 0 (min (sess.mazeWidth - 1) (p.position.1 + dx))) ≠ 1 := by
        rw [htile]; norm_num
      rw [move_eq_of_accept sess pid dx dy p hp hal hwall]
      rw [checkTile_obstacle _ _ _ _ htile]
      refine ⟨_, lookupA_setA_self .., ?_⟩
      obtain ⟨hl, hd, hr⟩ := handleObstacle_spec
        { p with position := (max 0 (min (sess.mazeWidth - 1)
            (p.position.1 + dx)), max 0 (min (sess.mazeHeight - 1)
            (p.position.2 + dy))) }
      rw [show ({ p with position := (max 0 (min (sess.mazeWidth - 1)
            (p.position.1 + dx)), max 0 (min (sess.mazeHeight - 1)
            (p.position.2 + dy))) } : PlayerB).lives = p.lives from rfl] at hl hd hr
      refine ⟨hl, fun hz => hd (by omega), fun hnz => ?_⟩
      have hgt : ¬ p.lives - 1 ≤ 0 := by omega
      exact ⟨((hr hgt).1.trans
        (show ({ p with position := (max 0 (min (sess.mazeWidth - 1)
          (p.position.1 + dx)), max 0 (min (sess.mazeHeight - 1)
          (p.position.2 + dy))) } : PlayerB).status = p.status from rfl)).trans
        hal, (hr hgt).2⟩
    · intro q pq hq
      by_cases hwall : sess.maze
          (max 0 (min (sess.mazeHeight - 1) (p.position.2 + dy)))
          (max 0 (min (sess.mazeWidth - 1) (p.position.1 + dx))) = 1
      · rw [move_eq_of_wall sess pid dx dy p hp hal hwall] at hq
        exact hinv q pq hq
      · rw [move_eq_of_accept sess pid dx dy p hp hal hwall] at hq
        by_cases hqp : q = pid
        · subst hqp
          rw [show ({ sess with players := setA sess.players q _ } :
              Session).players = setA sess.players q _ from rfl,
            lookupA_setA_self] at hq
          obtain rfl := Option.some.inj hq
          exact checkTile_inv sess _ _ _ hlives1
        · rw [show ({ sess with players := setA sess.players pid _ } :
              Session).players = setA sess.players pid _ from rfl,
            lookupA_setA_ne _ _ _ _ hqp] at hq
          exact hinv q pq hq
  · exact ⟨fun hcon => absurd hcon hal, by
      rw [move_eq_of_not_alive sess pid dx dy p hp hal]
      exact hinv, fun _ => move_eq_of_not_alive sess pid dx dy p hp hal⟩

end SH

namespace SH

open AListM

/-- Concrete player for the C6 witness: alive with a single life. -/
def C6exPlayer : PlayerB :=
  { id := "p", position := (1, 1), facing := 0, lives := 1, eliminations := 0,
    checkpointsReached := 0, status := PStatus.alive, abilities := [],
    activeCooldowns := [], lastCheckpointPosition := (1, 1) }

/-- Concrete session for the C6 witness: an obstacle tile at `(2, 1)`. -/
def C6exSession : Session :=
  { id := "s", players := [("p", C6exPlayer)],
    maze := fun y x => if y = 1 ∧ x = 2 then 4 else 0,
    mazeWidth := 5, mazeHeight := 5, status := "in_progress" }

/-- Witness for C6 at a concrete session: a one-life player stepping onto an
obstacle. -/
theorem C6_witness :
    lookupA C6exSession.players "p" = some C6exPlayer ∧
    ((C6exPlayer.status = PStatus.alive →
      C6exSession.maze
        (max 0 (min (C6exSession.mazeHeight - 1) (C6exPlayer.position.2 + 0)))
        (max 0 (min (C6exSession.mazeWidth - 1) (C6exPlayer.position.1 + 1)))
        = 4 →
      ∃ p2, lookupA (move C6exSession "p" 1 0).players "p" = some p2 ∧
        p2.lives = C6exPlayer.lives - 1 ∧
        (p2.lives = 0 → p2.status = PStatus.dead) ∧
        (p2.lives ≠ 0 → p2.status = PStatus.alive ∧
          p2.position = C6exPlayer.lastCheckpointPosition)) ∧
    (∀ q pq, lookupA (move C6exSession "p" 1 0).players q = some pq →
      0 ≤ pq.lives ∧ (pq.status = PStatus.alive → 1 ≤ pq.lives)) ∧
    (C6exPlayer.status ≠ PStatus.alive →
      move C6exSession "p" 1 0 = C6exSession)) :=
  ⟨rfl, C6_obstacle_lives C6exSession "p" 1 0 C6exPlayer rfl
    (fun q pq h => by
      have hm := AListM.lookupA_mem h
      rw [show C6exSession.players = [("p", C6exPlayer)] from rfl,
        List.mem_singleton, Prod.mk.injEq] at hm
      obtain ⟨_, rfl⟩ := hm
      exact ⟨by decide, fun _ => by decide⟩)⟩

end SH

namespace GR

open AListM

theorem ccc_pres (cps : List Checkpoint) (p : Player) :
    (checkCheckpointCollision cps p).2.x = p.x ∧
    (checkCheckpointCollision cps p).2.y = p.y ∧
    (checkCheckpointCollision cps p).2.angle = p.angle ∧
    (checkCheckpointCollision cps p).2.isAlive = p.isAlive ∧
    (checkCheckpointCollision cps p).2.id = p.id := by
  induction cps generalizing p with
  | nil => exact ⟨rfl, rfl, rfl, rfl, rfl⟩
  | cons cp t ih =>
    unfold checkCheckpointCollision
    by_cases h : cp.reached = false ∧ distSq p.x p.y cp.x cp.y < 1 / 4
    · simp only [if_pos h]
      exact ih { p with checkpointsPassed := p.checkpointsPassed + 1 }
    · simp only [if_neg h]
      exact ih p

theorem checkEnd_players (r : Room) (p : Player) :
    (checkEndCollision r p).players = r.players := by
  unfold checkEndCollision
  split_ifs <;> rfl

theorem checkEnd_endPosition (r : Room) (p : Player) :
    (checkEndCollision r p).endPosition = r.endPosition := by
  unfold checkEndCollision
  split_ifs <;> rfl

theorem checkEnd_state_near (r : Room) (p : Player)
    (h : distSq p.x p.y r.endPosition.1 r.endPosition.2 < 1 / 4) :
    (checkEndCollision r p).gameState = GameState.FINISHED := by
  unfold checkEndCollision
  rw [if_pos h]

theorem checkEnd_state_far (r : Room) (p : Player)
    (h : ¬ distSq p.x p.y r.endPosition.1 r.endPosition.2 < 1 / 4) :
    (checkEndCollision r p).gameState = r.gameState := by
  unfold checkEndCollision
  rw [if_neg h]

theorem upp_reject (r : Room) (pid : String) (pos : ℚ × ℚ) (angle : ℚ)
    (hnv : ¬ isValidPosition r pos.1 pos.2) :
    updatePlayerPosition r pid pos angle = r := by
  unfold updatePlayerPosition
  cases hl : lookupA r.players pid with
  | none => rfl
  | some p =>
    by_cases ha : p.isAlive = false
    · simp [ha]
    · simp [ha, hnv]

theorem upp_accept (r : Room) (pid : String) (pos : ℚ × ℚ) (angle : ℚ)
    (p : Player) (hp : lookupA r.players pid = some p)
    (ha : p.isAlive = true) (hv : isValidPosition r pos.1 pos.2) :
    updatePlayerPosition r pid pos angle =
      checkEndCollision
        { r with
          checkpoints := (checkCheckpointCollision r.checkpoints
            { p with x := pos.1, y := pos.2, angle := angle }).1
          players := setA r.players pid (checkCheckpointCollision r.checkpoints
            { p with x := pos.1, y := pos.2, angle := angle }).2 }
        (checkCheckpointCollision r.checkpoints
          { p with x := pos.1, y := pos.2, angle := angle }).2 := by
  unfold updatePlayerPosition
  rw [hp]
  simp [ha, hv]

/-- Claim C2: an accepted move places the player exactly at the requested
continuous position, whose floor cell is not a WALL cell; a move whose floor
cell is a WALL or outside the grid (`isValidPosition` false) is rejected,
leaving the entire room — in particular the player's position and angle —
unchanged. -/
theorem C2_move_wall_collision (r : Room) (pid : String) (pos : ℚ × ℚ)
    (angle : ℚ) :
    (∀ p, lookupA r.players pid = some p → p.isAlive = true →
      isValidPosition r pos.1 pos.2 →
      ∃ p2, lookupA (updatePlayerPosition r pid pos angle).players pid =
          some p2 ∧
        p2.x = pos.1 ∧ p2.y = pos.2 ∧ p2.angle = angle ∧
        r.maze (Int.floor pos.2) (Int.floor pos.1) ≠ 0) ∧
    (¬ isValidPosition r pos.1 pos.2 →
      updatePlayerPosition r pid pos angle = r) := by
  constructor
  · intro p hp ha hv
    rw [upp_accept r pid pos angle p hp ha hv, checkEnd_players]
    obtain ⟨hx, hy, hang, _, _⟩ := ccc_pres r.checkpoints
      { p with x := pos.1, y := pos.2, angle := angle }
    refine ⟨_, lookupA_setA_self .., hx, hy, hang, ?_⟩
    rw [hv.2.2.2.2]
    norm_num
  · exact upp_reject r pid pos angle

end GR

namespace GR

open AListM

/-- Concrete player for the C2 witness. -/
def C2exPlayer : Player :=
  { id := "p", x := 1, y := 1, angle := 0, color := "", lives := 3,
    checkpointsPassed := 0, isAlive := true }

/-- Concrete room for the C2 witness (all cells empty). -/
def C2exRoom : Room :=
  { id := "R", players := [("p", C2exPlayer)], maze := fun _ _ => 1,
    checkpoints := [], gameState := GameState.IN_PROGRESS, maxPlayers := 8,
    startPosition := (1, 1), endPosition := (3, 3), mazeWidth := 5,
    mazeHeight := 5, readyPlayers := ∅ }

/-- Witness for C2: an accepted move to `(5/2, 3/2)`. -/
theorem C2_witness :
    lookupA C2exRoom.players "p" = some C2exPlayer ∧
    C2exPlayer.isAlive = true ∧
    isValidPosition C2exRoom ((5 : ℚ)/2, (3 : ℚ)/2).1 ((5 : ℚ)/2, (3 : ℚ)/2).2 ∧
    ∃ p2, lookupA (updatePlayerPosition C2exRoom "p"
        ((5 : ℚ)/2, (3 : ℚ)/2) 0).players "p" = some p2 ∧
      p2.x = ((5 : ℚ)/2, (3 : ℚ)/2).1 ∧ p2.y = ((5 : ℚ)/2, (3 : ℚ)/2).2 ∧
      p2.angle = 0 ∧
      C2exRoom.maze (Int.floor ((5 : ℚ)/2, (3 : ℚ)/2).2)
        (Int.floor ((5 : ℚ)/2, (3 : ℚ)/2).1) ≠ 0 :=
  ⟨rfl, rfl, by norm_num [isValidPosition, C2exRoom],
    (C2_move_wall_collision C2exRoom "p" ((5 : ℚ)/2, (3 : ℚ)/2) 0).1
      C2exPlayer rfl rfl (by norm_num [isValidPosition, C2exRoom])⟩

/-- Claim C3: under the map well-formedness invariant (every ready player is
a connected player), the start gate of the source — a size comparison —
holds exactly when the ready set equals the set of connected players and the
population is at least the configured minimum; removing a player removes its
readiness; and a successful gate transitions the room to `IN_PROGRESS`. -/
theorem C3_ready_gate (r : Room) (minPlayers : ℕ)
    (hnd : NodupKeys r.players)
    (hsub : ∀ q ∈ r.readyPlayers, q ∈ keysL r.players) :
    (canStartGame minPlayers r ↔
      (minPlayers ≤ r.players.length ∧
        r.readyPlayers = (keysL r.players).toFinset)) ∧
    (∀ pid, pid ∉ (removePlayer r pid).readyPlayers) ∧
    (∀ s pid rid room, lookupA s.playerRooms pid = some rid →
      lookupA s.gameRooms rid = some room →
      canStartGame minPlayers (setPlayerReady room pid) →
      ∃ room', lookupA (handlePlayerReady minPlayers s pid).gameRooms rid =
          some room' ∧ room'.gameState = GameState.IN_PROGRESS) := by
  refine ⟨?_, ?_, ?_⟩
  · unfold canStartGame
    have hcardkeys : (keysL r.players).toFinset.card = r.players.length := by
      rw [List.toFinset_card_of_nodup hnd]
      unfold keysL
      rw [List.length_map]
    constructor
    · rintro ⟨h1, h2⟩
      refine ⟨h1, Finset.eq_of_subset_of_card_le ?_ ?_⟩
      · intro q hq
        exact List.mem_toFinset.mpr (hsub q hq)
      · rw [hcardkeys, h2]
    · rintro ⟨h1, h2⟩
      exact ⟨h1, by rw [h2, hcardkeys]⟩
  · intro pid
    exact Finset.not_mem_erase pid r.readyPlayers
  · intro s pid rid room h1 h2 hcan
    simp only [handlePlayerReady, h1, h2, if_pos hcan]
    exact ⟨startGame (setPlayerReady room pid), lookupA_setA_self .., rfl⟩

/-- Concrete players for the C3/C4 example states. -/
def C4exPlayerA : Player :=
  { id := "a", x := 1, y := 1, angle := 0, color := "", lives := 3,
    checkpointsPassed := 0, isAlive := true }

/-- Second concrete player for the C3/C4 example states. -/
def C4exPlayerB : Player :=
  { id := "b", x := 1, y := 1, angle := 0, color := "", lives := 3,
    checkpointsPassed := 0, isAlive := true }

/-- A FINISHED room with two connected players, both still in the ready set
(the source never clears `readyPlayers` after a game starts). -/
def C4exRoom : Room :=
  { id := "R", players := [("a", C4exPlayerA), ("b", C4exPlayerB)],
    maze := fun _ _ => 1, checkpoints := [],
    gameState := GameState.FINISHED, maxPlayers := 8,
    startPosition := (1, 1), endPosition := (3, 3), mazeWidth := 5,
    mazeHeight := 5, readyPlayers := {"a", "b"} }

/-- Manager state holding the FINISHED example room. -/
def C4exState : ManagerState :=
  { gameRooms := [("R", C4exRoom)],
    playerRooms := [("a", "R"), ("b", "R")] }

/-- Witness for C3 at the concrete FINISHED room. -/
theorem C3_witness :
    NodupKeys C4exRoom.players ∧
    (∀ q ∈ C4exRoom.readyPlayers, q ∈ keysL C4exRoom.players) ∧
    ((canStartGame 2 C4exRoom ↔
      (2 ≤ C4exRoom.players.length ∧
        C4exRoom.readyPlayers = (keysL C4exRoom.players).toFinset)) ∧
    (∀ pid, pid ∉ (removePlayer C4exRoom pid).readyPlayers) ∧
    (∀ s pid rid room, lookupA s.playerRooms pid = some rid →
      lookupA s.gameRooms rid = some room →
      canStartGame 2 (setPlayerReady room pid) →
      ∃ room', lookupA (handlePlayerReady 2 s pid).gameRooms rid =
          some room' ∧ room'.gameState = GameState.IN_PROGRESS)) :=
  ⟨by decide, by decide, C3_ready_gate C4exRoom 2 (by decide) (by decide)⟩

/-- Claim C4 (amended): movement operations on a room whose state is
FINISHED are complete silent no-ops — the whole manager state, hence every
player position, life count, checkpoint flag and the room state, is
unchanged, and no error is raised (the handler is total). -/
theorem C4_finished_move_noop (s : ManagerState) (pid : String) (pos : ℚ × ℚ)
    (angle : ℚ) (rid : String) (room : Room)
    (h1 : lookupA s.playerRooms pid = some rid)
    (h2 : lookupA s.gameRooms rid = some room)
    (h3 : room.gameState = GameState.FINISHED) :
    handlePlayerMove s pid pos angle = s := by
  simp only [handlePlayerMove, h1, h2, h3]
  rw [if_pos (by decide)]

/-- Witness for C4 at the concrete FINISHED state. -/
theorem C4_witness :
    lookupA C4exState.playerRooms "a" = some "R" ∧
    lookupA C4exState.gameRooms "R" = some C4exRoom ∧
    C4exRoom.gameState = GameState.FINISHED ∧
    handlePlayerMove C4exState "a" (2, 2) 0 = C4exState :=
  ⟨rfl, rfl, rfl,
    C4_finished_move_noop C4exState "a" (2, 2) 0 "R" C4exRoom rfl rfl rfl⟩

/-- Counterexample for C4 as stated: a room can leave the FINISHED state.
With every connected player still in the ready set, a single further
`player-ready` signal passes `canStartGame` (which never checks the room
state) and `startGame()` moves the FINISHED room back to IN_PROGRESS. -/
theorem C4_counterexample :
    (lookupA C4exState.gameRooms "R").map Room.gameState =
      some GameState.FINISHED ∧
    (lookupA (handlePlayerReady 2 C4exState "a").gameRooms "R").map
      Room.gameState = some GameState.IN_PROGRESS :=
  ⟨rfl, by decide⟩

/-- Claim C10: a join request naming an existing room id adds the player
whenever the room is below capacity, regardless of the room's state — the
new player is spawned at the room's start position with 3 lives — and the
only join rejection is the room-full error, which leaves the state
unchanged. -/
theorem C10_explicit_join (cfg : Config) (s : ManagerState) (pid : String)
    (rid newId : String) (rng : ℕ → ℕ) (room : Room)
    (hroom : lookupA s.gameRooms rid = some room) :
    (room.players.length < room.maxPlayers →
      ∃ room', lookupA (handleJoinGame cfg s pid (some rid) newId
          rng).gameRooms rid = some room' ∧
        (∃ p, lookupA room'.players pid = some p ∧
          p.x = room.startPosition.1 ∧ p.y = room.startPosition.2 ∧
          p.isAlive = true ∧ p.lives = 3) ∧
        room'.gameState = room.gameState ∧
        lookupA (handleJoinGame cfg s pid (some rid) newId
          rng).playerRooms pid = some rid) ∧
    (room.maxPlayers ≤ room.players.length →
      handleJoinGame cfg s pid (some rid) newId rng = s) := by
  simp only [handleJoinGame, chooseRoom, hroom]
  constructor
  · intro hlt
    rw [if_neg (by omega)]
    refine ⟨_, lookupA_setA_self .., ⟨_, lookupA_setA_self .., rfl, rfl,
      rfl, rfl⟩, rfl, lookupA_setA_self ..⟩
  · intro hge
    rw [if_pos (by omega)]

/-- An empty FINISHED room for the C10 witness. -/
def C10exRoom : Room :=
  { id := "R", players := [], maze := fun _ _ => 1, checkpoints := [],
    gameState := GameState.FINISHED, maxPlayers := 8,
    startPosition := (1, 1), endPosition := (3, 3), mazeWidth := 5,
    mazeHeight := 5, readyPlayers := ∅ }

/-- Manager state holding the empty FINISHED room. -/
def C10exState : ManagerState :=
  { gameRooms := [("R", C10exRoom)], playerRooms := [] }

/-- Witness for C10: joining an existing FINISHED room by explicit id
succeeds and spawns the player at the start position. -/
theorem C10_witness :
    lookupA C10exState.gameRooms "R" = some C10exRoom ∧
    C10exRoom.players.length < C10exRoom.maxPlayers ∧
    C10exRoom.gameState = GameState.FINISHED ∧
    ∃ room', lookupA (handleJoinGame ⟨8, 2, 15, 15⟩ C10exState "p"
        (some "R") "N" (fun _ => 0)).gameRooms "R" = some room' ∧
      (∃ p, lookupA room'.players "p" = some p ∧
        p.x = C10exRoom.startPosition.1 ∧ p.y = C10exRoom.startPosition.2 ∧
        p.isAlive = true ∧ p.lives = 3) ∧
      room'.gameState = C10exRoom.gameState ∧
      lookupA (handleJoinGame ⟨8, 2, 15, 15⟩ C10exState "p"
        (some "R") "N" (fun _ => 0)).playerRooms "p" = some "R" :=
  ⟨rfl, by decide, rfl,
    (C10_explicit_join ⟨8, 2, 15, 15⟩ C10exState "p" "R" "N" (fun _ => 0)
      C10exRoom rfl).1 (by decide)⟩

end GR

namespace GR

open AListM

/-- Claim C5: while a room is IN_PROGRESS and no player is yet within the
collision radius 0.5 of the finish cell (the reachability invariant of the
room), an accepted move transitions the room to FINISHED exactly when it
places the mover within squared distance 1/4 of the end position, and in
that case `getWinnerId` reports the mover — the unique player within the
radius; an accepted move landing farther away leaves the room IN_PROGRESS,
and a rejected move leaves the whole state unchanged. -/
theorem C5_finish_transition_winner (s : ManagerState) (pid : String)
    (pos : ℚ × ℚ) (angle : ℚ) (rid : String) (room : Room) (p : Player)
    (hpr : lookupA s.playerRooms pid = some rid)
    (hgr : lookupA s.gameRooms rid = some room)
    (hst : room.gameState = GameState.IN_PROGRESS)
    (hp : lookupA room.players pid = some p)
    (halive : p.isAlive = true)
    (hnd : NodupKeys room.players)
    (hfar : ∀ q pq, q ≠ pid → lookupA room.players q = some pq →
      ¬ distSq pq.x pq.y room.endPosition.1 room.endPosition.2 < 1 / 4) :
    (¬ isValidPosition room pos.1 pos.2 →
      handlePlayerMove s pid pos angle = s) ∧
    (isValidPosition room pos.1 pos.2 →
      ∃ room', lookupA (handlePlayerMove s pid pos angle).gameRooms rid =
          some room' ∧
        (distSq pos.1 pos.2 room.endPosition.1 room.endPosition.2 < 1 / 4 →
          room'.gameState = GameState.FINISHED ∧
          getWinnerId room' = some pid) ∧
        (¬ distSq pos.1 pos.2 room.endPosition.1 room.endPosition.2 < 1 / 4 →
          room'.gameState = GameState.IN_PROGRESS)) := by
  constructor
  · intro hnv
    simp only [handlePlayerMove, hpr, hgr]
    rw [if_neg (by simp [hst]), upp_reject room pid pos angle hnv,
      setA_self_eq hgr]
  · intro hv
    simp only [handlePlayerMove, hpr, hgr]
    rw [if_neg (by simp [hst]), upp_accept room pid pos angle p hp halive hv]
    obtain ⟨hx, hy, _, _, _⟩ := ccc_pres room.checkpoints
      { p with x := pos.1, y := pos.2, angle := angle }
    set p2 := (checkCheckpointCollision room.checkpoints
      { p with x := pos.1, y := pos.2, angle := angle }).2 with hp2
    set r1 : Room :=
      { room with
        checkpoints := (checkCheckpointCollision room.checkpoints
          { p with x := pos.1, y := pos.2, angle := angle }).1
        players := setA room.players pid p2 } with hr1
    refine ⟨checkEndCollision r1 p2, lookupA_setA_self .., ?_, ?_⟩
    · intro hnear
      have hnear2 : distSq p2.x p2.y r1.endPosition.1 r1.endPosition.2
          < 1 / 4 := by
        rw [hx, hy]
        exact hnear
      refine ⟨checkEnd_state_near r1 p2 hnear2, ?_⟩
      unfold getWinnerId
      rw [checkEnd_players, checkEnd_endPosition]
      have hfind : (r1.players.find? fun kp =>
          decide (distSq kp.2.x kp.2.y r1.endPosition.1 r1.endPosition.2
            < 1 / 4)) = some (pid, p2) := by
        apply find?_setA_first _ hnd
        · rw [hp]; rfl
        · simp only [decide_eq_true_eq]
          exact hnear2
        · intro q w hq hw
          simp only [decide_eq_false_iff_not]
          exact hfar q w hq hw
      rw [hfind]
      rfl
    · intro hnear
      apply checkEnd_state_far r1 p2 ?_ |>.trans hst
      rw [hx, hy]
      exact hnear

end GR

namespace GR

open AListM

/-- Concrete player for the C5 witness. -/
def C5exPlayer : Player :=
  { id := "a", x := 1, y := 1, angle := 0, color := "", lives := 3,
    checkpointsPassed := 0, isAlive := true }

/-- Concrete IN_PROGRESS room for the C5 witness. -/
def C5exRoom : Room :=
  { id := "R", players := [("a", C5exPlayer)], maze := fun _ _ => 1,
    checkpoints := [], gameState := GameState.IN_PROGRESS, maxPlayers := 8,
    startPosition := (1, 1), endPosition := (3, 3), mazeWidth := 5,
    mazeHeight := 5, readyPlayers := ∅ }

/-- Manager state for the C5 witness. -/
def C5exState : ManagerState :=
  { gameRooms := [("R", C5exRoom)], playerRooms := [("a", "R")] }

/-- Witness for C5: a move onto the end cell finishes the room and reports
the mover as winner. -/
theorem C5_witness :
    lookupA C5exState.playerRooms "a" = some "R" ∧
    lookupA C5exState.gameRooms "R" = some C5exRoom ∧
    C5exRoom.gameState = GameState.IN_PROGRESS ∧
    ((¬ isValidPosition C5exRoom ((3 : ℚ), (3 : ℚ)).1 ((3 : ℚ), (3 : ℚ)).2 →
      handlePlayerMove C5exState "a" (3, 3) 0 = C5exState) ∧
    (isValidPosition C5exRoom ((3 : ℚ), (3 : ℚ)).1 ((3 : ℚ), (3 : ℚ)).2 →
      ∃ room', lookupA (handlePlayerMove C5exState "a" (3, 3) 0).gameRooms
          "R" = some room' ∧
        (distSq ((3 : ℚ), (3 : ℚ)).1 ((3 : ℚ), (3 : ℚ)).2
            C5exRoom.endPosition.1 C5exRoom.endPosition.2 < 1 / 4 →
          room'.gameState = GameState.FINISHED ∧
          getWinnerId room' = some "a") ∧
        (¬ distSq ((3 : ℚ), (3 : ℚ)).1 ((3 : ℚ), (3 : ℚ)).2
            C5exRoom.endPosition.1 C5exRoom.endPosition.2 < 1 / 4 →
          room'.gameState = GameState.IN_PROGRESS))) :=
  ⟨rfl, rfl, rfl,
    C5_finish_transition_winner C5exState "a" (3, 3) 0 "R" C5exRoom
      C5exPlayer rfl rfl rfl rfl rfl (by decide)
      (fun q pq hq hw => by
        have hne : "a" ≠ q := fun h => hq h.symm
        simp [C5exRoom, lookupA, hne] at hw)⟩

end GR

namespace AListM

theorem lookupA_setA_isSome {α : Type} (l : List (String × α)) (k q : String)
    (v : α) (hk : (lookupA l k).isSome = true) :
    (lookupA (setA l k v) q).isSome = (lookupA l q).isSome := by
  by_cases hq : q = k
  · subst hq
    rw [lookupA_setA_self, hk]
    rfl
  · rw [lookupA_setA_ne _ _ _ _ hq]

end AListM

namespace GR

open AListM

theorem joinFallback_spec (cfg : Config) (s : ManagerState) (newId : String)
    (rng : ℕ → ℕ) (hwf : WfState s) (hdc : DirConsistent s)
    (hfresh : lookupA s.gameRooms newId = none) :
    (joinFallback cfg s newId rng).1.playerRooms = s.playerRooms ∧
    lookupA (joinFallback cfg s newId rng).1.gameRooms
      (joinFallback cfg s newId rng).2.1 =
      some (joinFallback cfg s newId rng).2.2 ∧
    WfState (joinFallback cfg s newId rng).1 ∧
    DirConsistent (joinFallback cfg s newId rng).1 := by
  unfold joinFallback
  cases hf : findAvailableRoom s.gameRooms with
  | some kr =>
    have hmem : kr ∈ s.gameRooms := List.mem_of_find?_eq_some hf
    exact ⟨rfl, mem_lookupA hwf.1 hmem, hwf, hdc⟩
  | none =>
    refine ⟨rfl, lookupA_setA_self .., ⟨nodupKeys_setA _ _ hwf.1, hwf.2.1, ?_⟩,
      ?_, ?_⟩
    · intro rid' room' h'
      by_cases hr : rid' = newId
      · subst hr
        rw [lookupA_setA_self] at h'
        obtain rfl := Option.some.inj h'
        exact List.nodup_nil
      · rw [lookupA_setA_ne _ _ _ _ hr] at h'
        exact hwf.2.2 _ _ h'
    · intro q rid' h'
      obtain ⟨room'', hlk'', hsm⟩ := hdc.1 q rid' h'
      have hr : rid' ≠ newId := by
        rintro rfl
        rw [hfresh] at hlk''
        exact Option.noConfusion hlk''
      exact ⟨room'', by rw [lookupA_setA_ne _ _ _ _ hr]; exact hlk'', hsm⟩
    · intro rid' room' q pq h' hq
      by_cases hr : rid' = newId
      · subst hr
        rw [lookupA_setA_self] at h'
        obtain rfl := Option.some.inj h'
        exact Option.noConfusion hq
      · rw [lookupA_setA_ne _ _ _ _ hr] at h'
        exact hdc.2 rid' room' q pq h' hq

theorem chooseRoom_spec (cfg : Config) (s : ManagerState)
    (ridOpt : Option String) (newId : String) (rng : ℕ → ℕ)
    (hwf : WfState s) (hdc : DirConsistent s)
    (hfresh : lookupA s.gameRooms newId = none) :
    (chooseRoom cfg s ridOpt newId rng).1.playerRooms = s.playerRooms ∧
    lookupA (chooseRoom cfg s ridOpt newId rng).1.gameRooms
      (chooseRoom cfg s ridOpt newId rng).2.1 =
      some (chooseRoom cfg s ridOpt newId rng).2.2 ∧
    WfState (chooseRoom cfg s ridOpt newId rng).1 ∧
    DirConsistent (chooseRoom cfg s ridOpt newId rng).1 := by
  cases ridOpt with
  | none =>
    simp only [chooseRoom]
    exact joinFallback_spec cfg s newId rng hwf hdc hfresh
  | some rid =>
    simp only [chooseRoom]
    cases hl : lookupA s.gameRooms rid with
    | none =>
      simp only [hl]
      exact joinFallback_spec cfg s newId rng hwf hdc hfresh
    | some room =>
      simp only [hl]
      exact ⟨trivial, trivial, hwf, hdc⟩

end GR

namespace GR

open AListM

theorem join_preserves (cfg : Config) (s : ManagerState) (pid : String)
    (ridOpt : Option String) (newId : String) (rng : ℕ → ℕ)
    (hwf : WfState s) (hdc : DirConsistent s)
    (hfreshP : lookupA s.playerRooms pid = none)
    (hfreshR : lookupA s.gameRooms newId = none) :
    WfState (handleJoinGame cfg s pid ridOpt newId rng) ∧
    DirConsistent (handleJoinGame cfg s pid ridOpt newId rng) := by
  obtain ⟨hpr, hlk, hwf1, hdc1⟩ :=
    chooseRoom_spec cfg s ridOpt newId rng hwf hdc hfreshR
  have hfreshP1 : lookupA (chooseRoom cfg s ridOpt newId rng).1.playerRooms
      pid = none := by rw [hpr]; exact hfreshP
  simp only [handleJoinGame]
  set ch := chooseRoom cfg s ridOpt newId rng with hch
  by_cases hfull : ch.2.2.maxPlayers ≤ ch.2.2.players.length
  · rw [if_pos hfull]
    exact ⟨hwf1, hdc1⟩
  · rw [if_neg hfull]
    have haddpl : (addPlayer ch.2.2 (mkJoinPlayer pid ch.2.2)).players =
        setA ch.2.2.players pid (mkJoinPlayer pid ch.2.2) := rfl
    constructor
    · refine ⟨nodupKeys_setA _ _ hwf1.1, nodupKeys_setA _ _ hwf1.2.1, ?_⟩
      intro rid' room' h'
      by_cases hr : rid' = ch.2.1
      · subst hr
        rw [lookupA_setA_self] at h'
        obtain rfl := Option.some.inj h'
        rw [haddpl]
        exact nodupKeys_setA _ _ (hwf1.2.2 _ _ hlk)
      · rw [lookupA_setA_ne _ _ _ _ hr] at h'
        exact hwf1.2.2 _ _ h'
    · constructor
      · intro q rid' h'
        by_cases hq : q = pid
        · subst hq
          rw [lookupA_setA_self] at h'
          obtain rfl := Option.some.inj h'
          refine ⟨addPlayer ch.2.2 (mkJoinPlayer q ch.2.2),
            lookupA_setA_self .., ?_⟩
          rw [show (addPlayer ch.2.2 (mkJoinPlayer q ch.2.2)).players =
            setA ch.2.2.players q (mkJoinPlayer q ch.2.2) from rfl,
            lookupA_setA_self]
          rfl
        · rw [lookupA_setA_ne _ _ _ _ hq] at h'
          obtain ⟨room'', hlk'', hsm⟩ := hdc1.1 q rid' h'
          by_cases hr : rid' = ch.2.1
          · subst hr
            rw [hlk] at hlk''
            obtain rfl := Option.some.inj hlk''
            refine ⟨addPlayer ch.2.2 (mkJoinPlayer pid ch.2.2),
              lookupA_setA_self .., ?_⟩
            rw [haddpl, lookupA_setA_ne _ _ _ _ hq]
            exact hsm
          · refine ⟨room'', ?_, hsm⟩
            rw [lookupA_setA_ne _ _ _ _ hr]
            exact hlk''
      · intro rid' room' q pq h' hq
        by_cases hr : rid' = ch.2.1
        · subst hr
          rw [lookupA_setA_self] at h'
          obtain rfl := Option.some.inj h'
          by_cases hqp : q = pid
          · subst hqp
            exact lookupA_setA_self ..
          · rw [haddpl, lookupA_setA_ne _ _ _ _ hqp] at hq
            have hdir := hdc1.2 ch.2.1 ch.2.2 q pq hlk hq
            rw [lookupA_setA_ne _ _ _ _ hqp]
            exact hdir
        · rw [lookupA_setA_ne _ _ _ _ hr] at h'
          have hdir := hdc1.2 rid' room' q pq h' hq
          by_cases hqp : q = pid
          · subst hqp
            rw [hfreshP1] at hdir
            exact Option.noConfusion hdir
          · rw [lookupA_setA_ne _ _ _ _ hqp]
            exact hdir

end GR

namespace GR

open AListM

theorem update_room_preserves (s : ManagerState) (rid : String)
    (room room2 : Room) (hwf : WfState s) (hdc : DirConsistent s)
    (hlk : lookupA s.gameRooms rid = some room)
    (hkeys : ∀ q, (lookupA room2.players q).isSome =
      (lookupA room.players q).isSome)
    (hnd2 : NodupKeys room2.players) :
    WfState { s with gameRooms := setA s.gameRooms rid room2 } ∧
    DirConsistent { s with gameRooms := setA s.gameRooms rid room2 } := by
  constructor
  · refine ⟨nodupKeys_setA _ _ hwf.1, hwf.2.1, ?_⟩
    intro rid' room' h'
    by_cases hr : rid' = rid
    · subst hr
      rw [lookupA_setA_self] at h'
      obtain rfl := Option.some.inj h'
      exact hnd2
    · rw [lookupA_setA_ne _ _ _ _ hr] at h'
      exact hwf.2.2 _ _ h'
  · constructor
    · intro q rid' h'
      obtain ⟨room'', hlk'', hsm⟩ := hdc.1 q rid' h'
      by_cases hr : rid' = rid
      · subst hr
        rw [hlk] at hlk''
        obtain rfl := Option.some.inj hlk''
        refine ⟨room2, lookupA_setA_self .., ?_⟩
        rw [hkeys q]
        exact hsm
      · refine ⟨room'', ?_, hsm⟩
        rw [lookupA_setA_ne _ _ _ _ hr]
        exact hlk''
    · intro rid' room' q pq h' hq
      by_cases hr : rid' = rid
      · subst hr
        rw [lookupA_setA_self] at h'
        obtain rfl := Option.some.inj h'
        have hsm : (lookupA room.players q).isSome = true := by
          rw [← hkeys q, hq]
          rfl
        obtain ⟨pq', hpq'⟩ := Option.isSome_iff_exists.mp hsm
        exact hdc.2 _ _ q pq' hlk hpq'
      · rw [lookupA_setA_ne _ _ _ _ hr] at h'
        exact hdc.2 rid' room' q pq h' hq

theorem upp_players_cases (r : Room) (pid : String) (pos : ℚ × ℚ)
    (angle : ℚ) :
    (updatePlayerPosition r pid pos angle).players = r.players ∨
    ((lookupA r.players pid).isSome = true ∧
      ∃ p2, (updatePlayerPosition r pid pos angle).players =
        setA r.players pid p2) := by
  cases hl : lookupA r.players pid with
  | none =>
    left
    unfold updatePlayerPosition
    rw [hl]
  | some p =>
    by_cases ha : p.isAlive = false
    · left
      rw [show updatePlayerPosition r pid pos angle = r from by
        unfold updatePlayerPosition; rw [hl]; simp [ha]]
    · by_cases hv : isValidPosition r pos.1 pos.2
      · right
        have ha' : p.isAlive = true := by
          rcases hb : p.isAlive
          · exact absurd hb ha
          · rfl
        rw [upp_accept r pid pos angle p hl ha' hv, checkEnd_players]
        exact ⟨rfl, _, rfl⟩
      · left
        rw [upp_reject r pid pos angle hv]

theorem move_preserves (s : ManagerState) (pid : String) (pos : ℚ × ℚ)
    (angle : ℚ) (hwf : WfState s) (hdc : DirConsistent s) :
    WfState (handlePlayerMove s pid pos angle) ∧
    DirConsistent (handlePlayerMove s pid pos angle) := by
  cases h1 : lookupA s.playerRooms pid with
  | none =>
    simp only [handlePlayerMove, h1]
    exact ⟨hwf, hdc⟩
  | some rid =>
    cases h2 : lookupA s.gameRooms rid with
    | none =>
      simp only [handlePlayerMove, h1, h2]
      exact ⟨hwf, hdc⟩
    | some room =>
      by_cases h3 : room.gameState ≠ GameState.IN_PROGRESS
      · simp only [handlePlayerMove, h1, h2, if_pos h3]
        exact ⟨hwf, hdc⟩
      · simp only [handlePlayerMove, h1, h2, if_neg h3]
        apply update_room_preserves s rid room _ hwf hdc h2
        · intro q
          rcases upp_players_cases room pid pos angle with he | ⟨hsm, p2, he⟩
          · rw [he]
          · rw [he]
            exact lookupA_setA_isSome _ _ _ _ hsm
        · rcases upp_players_cases room pid pos angle with he | ⟨hsm, p2, he⟩
          · rw [he]
            exact hwf.2.2 _ _ h2
          · rw [he]
            exact nodupKeys_setA _ _ (hwf.2.2 _ _ h2)

theorem ready_preserves (minPlayers : ℕ) (s : ManagerState) (pid : String)
    (hwf : WfState s) (hdc : DirConsistent s) :
    WfState (handlePlayerReady minPlayers s pid) ∧
    DirConsistent (handlePlayerReady minPlayers s pid) := by
  cases h1 : lookupA s.playerRooms pid with
  | none =>
    simp only [handlePlayerReady, h1]
    exact ⟨hwf, hdc⟩
  | some rid =>
    cases h2 : lookupA s.gameRooms rid with
    | none =>
      simp only [handlePlayerReady, h1, h2]
      exact ⟨hwf, hdc⟩
    | some room =>
      simp only [handlePlayerReady, h1, h2]
      have hple : (if canStartGame minPlayers (setPlayerReady room pid) then
          startGame (setPlayerReady room pid)
          else setPlayerReady room pid).players = room.players := by
        split_ifs <;> rfl
      apply update_room_preserves s rid room _ hwf hdc h2
      · intro q
        rw [hple]
      · rw [hple]
        exact hwf.2.2 _ _ h2

theorem leave_preserves (s : ManagerState) (pid : String)
    (hwf : WfState s) (hdc : DirConsistent s) :
    WfState (handleLeaveGame s pid) ∧
    DirConsistent (handleLeaveGame s pid) := by
  cases h1 : lookupA s.playerRooms pid with
  | none =>
    simp only [handleLeaveGame, h1]
    exact ⟨hwf, hdc⟩
  | some rid =>
    cases h2 : lookupA s.gameRooms rid with
    | none =>
      simp only [handleLeaveGame, h1, h2]
      exact ⟨hwf, hdc⟩
    | some room =>
      have hrmpl : (removePlayer room pid).players = eraseA room.players pid :=
        rfl
      by_cases hempty : (removePlayer room pid).players.length = 0
      · simp only [handleLeaveGame, h1, h2, if_pos hempty]
        have hplnil : (removePlayer room pid).players = [] :=
          List.length_eq_zero.mp hempty
        constructor
        · refine ⟨nodupKeys_eraseA _ hwf.1, nodupKeys_eraseA _ hwf.2.1, ?_⟩
          intro rid' room' h'
          by_cases hr : rid' = rid
          · subst hr
            rw [lookupA_eraseA_self hwf.1] at h'
            exact Option.noConfusion h'
          · rw [lookupA_eraseA_ne _ _ _ hr] at h'
            exact hwf.2.2 _ _ h'
        · constructor
          · intro q rid' h'
            by_cases hq : q = pid
            · subst hq
              rw [lookupA_eraseA_self hwf.2.1] at h'
              exact Option.noConfusion h'
            · rw [lookupA_eraseA_ne _ _ _ hq] at h'
              obtain ⟨room'', hlk'', hsm⟩ := hdc.1 q rid' h'
              by_cases hr : rid' = rid
              · subst hr
                rw [h2] at hlk''
                obtain rfl := Option.some.inj hlk''
                have hcon : (lookupA (eraseA room.players pid) q).isSome =
                    true := by
                  rw [lookupA_eraseA_ne _ _ _ hq]
                  exact hsm
                rw [← hrmpl, hplnil] at hcon
                exact Bool.noConfusion hcon
              · refine ⟨room'', ?_, hsm⟩
                rw [lookupA_eraseA_ne _ _ _ hr]
                exact hlk''
          · intro rid' room' q pq h' hq
            by_cases hr : rid' = rid
            · subst hr
              rw [lookupA_eraseA_self hwf.1] at h'
              exact Option.noConfusion h'
            · rw [lookupA_eraseA_ne _ _ _ hr] at h'
              have hdir := hdc.2 rid' room' q pq h' hq
              by_cases hqp : q = pid
              · subst hqp
                rw [h1] at hdir
                obtain rfl := Option.some.inj hdir
                exact absurd rfl hr
              · rw [lookupA_eraseA_ne _ _ _ hqp]
                exact hdir
      · simp only [handleLeaveGame, h1, h2, if_neg hempty]
        constructor
        · refine ⟨nodupKeys_setA _ _ hwf.1, nodupKeys_eraseA _ hwf.2.1, ?_⟩
          intro rid' room' h'
          by_cases hr : rid' = rid
          · subst hr
            rw [lookupA_setA_self] at h'
            obtain rfl := Option.some.inj h'
            rw [hrmpl]
            exact nodupKeys_eraseA _ (hwf.2.2 _ _ h2)
          · rw [lookupA_setA_ne _ _ _ _ hr] at h'
            exact hwf.2.2 _ _ h'
        · constructor
          · intro q rid' h'
            by_cases hq : q = pid
            · subst hq
              rw [lookupA_eraseA_self hwf.2.1] at h'
              exact Option.noConfusion h'
            · rw [lookupA_eraseA_ne _ _ _ hq] at h'
              obtain ⟨room'', hlk'', hsm⟩ := hdc.1 q rid' h'
              by_cases hr : rid' = rid
              · subst hr
                rw [h2] at hlk''
                obtain rfl := Option.some.inj hlk''
                refine ⟨removePlayer room pid, lookupA_setA_self .., ?_⟩
                rw [hrmpl, lookupA_eraseA_ne _ _ _ hq]
                exact hsm
              · refine ⟨room'', ?_, hsm⟩
                rw [lookupA_setA_ne _ _ _ _ hr]
                exact hlk''
          · intro rid' room' q pq h' hq
            by_cases hr : rid' = rid
            · subst hr
              rw [lookupA_setA_self] at h'
              obtain rfl := Option.some.inj h'
              by_cases hqp : q = pid
              · subst hqp
                rw [hrmpl, lookupA_eraseA_self (hwf.2.2 _ _ h2)] at hq
                exact Option.noConfusion hq
              · rw [hrmpl, lookupA_eraseA_ne _ _ _ hqp] at hq
                have hdir := hdc.2 _ room q pq h2 hq
                rw [lookupA_eraseA_ne _ _ _ hqp]
                exact hdir
            · rw [lookupA_setA_ne _ _ _ _ hr] at h'
              have hdir := hdc.2 rid' room' q pq h' hq
              by_cases hqp : q = pid
              · subst hqp
                rw [h1] at hdir
                obtain rfl := Option.some.inj hdir
                exact absurd rfl hr
              · rw [lookupA_eraseA_ne _ _ _ hqp]
                exact hdir

end GR

namespace GR

open AListM

theorem reachable_wf_dc (cfg : Config) (s : ManagerState)
    (hr : Reachable cfg s) : WfState s ∧ DirConsistent s := by
  induction hr with
  | init =>
    refine ⟨⟨List.nodup_nil, List.nodup_nil, ?_⟩, ?_, ?_⟩
    · intro rid room h
      exact Option.noConfusion h
    · intro pid rid h
      exact Option.noConfusion h
    · intro rid room pid p h _
      exact Option.noConfusion h
  | join s pid ridOpt newId rng _ hfp hfr ih =>
    exact join_preserves cfg s pid ridOpt newId rng ih.1 ih.2 hfp hfr
  | ready s pid _ ih =>
    exact ready_preserves cfg.minPlayers s pid ih.1 ih.2
  | mv s pid pos angle _ ih =>
    exact move_preserves s pid pos angle ih.1 ih.2
  | leave s pid _ ih =>
    exact leave_preserves s pid ih.1 ih.2

/-- Claim C8 (amended): from the empty initial state, under joins of players
not already in the directory (and fresh room uuids), readiness, movement,
leaves and disconnects, the directory stays internally consistent: a player
id occurs in a room's player map exactly when the directory maps it to that
room.  A leave that empties a room removes the room id from the directory,
and a join naming an absent room id behaves exactly like a join without a
room id (the "not found" fallback). -/
theorem C8_directory_consistency (cfg : Config) :
    (∀ s, Reachable cfg s → DirConsistent s) ∧
    (∀ s pid rid room, lookupA s.playerRooms pid = some rid →
      lookupA s.gameRooms rid = some room → NodupKeys s.gameRooms →
      (removePlayer room pid).players.length = 0 →
      lookupA (handleLeaveGame s pid).gameRooms rid = none) ∧
    (∀ s pid rid newId rng, lookupA s.gameRooms rid = none →
      handleJoinGame cfg s pid (some rid) newId rng =
        handleJoinGame cfg s pid none newId rng) := by
  refine ⟨?_, ?_, ?_⟩
  · intro s hr
    exact (reachable_wf_dc cfg s hr).2
  · intro s pid rid room h1 h2 hnd hempty
    simp only [handleLeaveGame, h1, h2, if_pos hempty]
    exact lookupA_eraseA_self hnd
  · intro s pid rid newId rng h
    simp only [handleJoinGame, chooseRoom, h]

/-- Witness for C8: the initial state is reachable and consistent, and a
join naming an unknown room id equals the id-less join. -/
theorem C8_witness :
    Reachable ⟨8, 2, 15, 15⟩ ⟨[], []⟩ ∧
    DirConsistent (⟨[], []⟩ : ManagerState) ∧
    lookupA (⟨[], []⟩ : ManagerState).gameRooms "Z" = none ∧
    handleJoinGame ⟨8, 2, 15, 15⟩ ⟨[], []⟩ "p" (some "Z") "N" (fun _ => 0) =
      handleJoinGame ⟨8, 2, 15, 15⟩ ⟨[], []⟩ "p" none "N" (fun _ => 0) :=
  ⟨Reachable.init,
    (C8_directory_consistency ⟨8, 2, 15, 15⟩).1 _ Reachable.init, rfl,
    (C8_directory_consistency ⟨8, 2, 15, 15⟩).2.2 ⟨[], []⟩ "p" "Z" "N"
      (fun _ => 0) rfl⟩

/-- Configuration for the C8 counterexample trace. -/
def C8exCfg : Config := ⟨8, 2, 5, 5⟩

/-- A state reached from the empty state by the unrestricted source
handlers: players p and q join and start room A, r opens room B, and then p
— already in room A — joins room B by explicit id.  Each step is a plain
application of the corresponding handler. -/
def C8exFinal : ManagerState :=
  handleJoinGame C8exCfg
    (handleJoinGame C8exCfg
      (handlePlayerReady 2
        (handlePlayerReady 2
          (handleJoinGame C8exCfg
            (handleJoinGame C8exCfg ⟨[], []⟩ "p" none "A" (fun _ => 0))
            "q" none "B" (fun _ => 0))
          "p")
        "q")
      "r" none "B" (fun _ => 0))
    "p" (some "B") "C" (fun _ => 0)

/-- Counterexample for C8 as stated: after the double join, player p is
still in room A's player map while the directory maps p to room B, so the
directory is not internally consistent even though every step was a join,
ready or leave handler of the source. -/
theorem C8_counterexample : ¬ DirConsistent C8exFinal := by
  intro h
  have hbind : ((lookupA C8exFinal.gameRooms "A").bind
      (fun room => lookupA room.players "p")).isSome = true := by decide
  rcases hA : lookupA C8exFinal.gameRooms "A" with _ | roomA
  · rw [hA] at hbind
    exact Bool.noConfusion hbind
  · rw [hA] at hbind
    rcases hp : lookupA roomA.players "p" with _ | pp
    · rw [show (some roomA).bind (fun room => lookupA room.players "p") =
        lookupA roomA.players "p" from rfl, hp] at hbind
      exact Bool.noConfusion hbind
    · have hdir := h.2 "A" roomA "p" pp hA hp
      have hB : lookupA C8exFinal.playerRooms "p" = some "B" := by decide
      rw [hdir] at hB
      exact absurd (Option.some.inj hB) (by decide)

end GR

namespace MG

theorem setCell_same (m : Grid) (x y : ℤ) (v : ℕ) : setCell m x y v y x = v := by
  simp [setCell]

theorem setCell_ne (m : Grid) (x y : ℤ) (v : ℕ) (b a : ℤ)
    (h : ¬ (b = y ∧ a = x)) : setCell m x y v b a = m b a := by
  simp only [setCell, if_neg h]

theorem mono1_refl (m : Grid) : Mono1 m m := fun _ _ h => h

theorem mono1_trans {m1 m2 m3 : Grid} (h1 : Mono1 m1 m2) (h2 : Mono1 m2 m3) :
    Mono1 m1 m3 := fun y x h => h2 y x (h1 y x h)

theorem mono1_setCell1 (m : Grid) (x y : ℤ) : Mono1 m (setCell m x y 1) := by
  intro b a h
  unfold setCell
  split_ifs <;> [rfl; exact h]

theorem ow_refl (m : Grid) : OnlyWrites1 m m := fun _ _ => Or.inl rfl

theorem ow_trans {m1 m2 m3 : Grid} (h1 : OnlyWrites1 m1 m2)
    (h2 : OnlyWrites1 m2 m3) : OnlyWrites1 m1 m3 := by
  intro y x
  rcases h2 y x with h | h
  · rw [h]
    exact h1 y x
  · exact Or.inr h

theorem ow_setCell1 (m : Grid) (x y : ℤ) : OnlyWrites1 m (setCell m x y 1) := by
  intro b a
  unfold setCell
  split_ifs <;> [exact Or.inr rfl; exact Or.inl rfl]

theorem binary_of_ow {m m' : Grid} (hb : ∀ b a, m b a = 0 ∨ m b a = 1)
    (how : OnlyWrites1 m m') : ∀ b a, m' b a = 0 ∨ m' b a = 1 := by
  intro b a
  rcases how b a with h | h
  · rw [h]
    exact hb b a
  · exact Or.inr h

theorem reach_mono {m m' : Grid} (hm : Mono1 m m') {a b : ℤ × ℤ}
    (h : ReachEmpty m a b) : ReachEmpty m' a b := by
  induction h with
  | refl => exact Relation.ReflTransGen.refl
  | tail _ hstep ih =>
    exact Relation.ReflTransGen.tail ih ⟨hstep.1, hm _ _ hstep.2⟩

theorem carved_setCell {m : Grid} {x y : ℤ} {c : ℤ × ℤ}
    (h : setCell m x y 1 c.2 c.1 = 1) : c = (x, y) ∨ m c.2 c.1 = 1 := by
  by_cases hc : c.2 = y ∧ c.1 = x
  · exact Or.inl (Prod.ext hc.2 hc.1)
  · rw [setCell_ne m x y 1 c.2 c.1 hc] at h
    exact Or.inr h

theorem invconn_extend {m : Grid} {a b : ℤ × ℤ} (hconn : InvConn m)
    (ha : m a.2 a.1 = 1) (hadj : adjacent a b) :
    InvConn (setCell m b.1 b.2 1) := by
  intro c hc
  have hmono := mono1_setCell1 m b.1 b.2
  rcases carved_setCell hc with hceq | hc'
  · rw [hceq]
    refine Relation.ReflTransGen.tail (reach_mono hmono (hconn a ha)) ?_
    exact ⟨hadj, setCell_same m b.1 b.2 1⟩
  · exact reach_mono hmono (hconn c hc')

theorem mem_latticeF {w h : ℤ} {c : ℤ × ℤ} :
    c ∈ latticeF w h ↔ 1 ≤ c.1 ∧ c.1 < w - 1 ∧ 1 ≤ c.2 ∧ c.2 < h - 1 ∧
      c.1 % 2 = 1 ∧ c.2 % 2 = 1 := by
  unfold latticeF
  rw [Finset.mem_filter, Finset.mem_product, Finset.mem_Ico, Finset.mem_Ico]
  tauto

theorem unvis_subset {w h : ℤ} {m m' : Grid} (how : OnlyWrites1 m m') :
    unvis w h m' ⊆ unvis w h m := by
  intro c hc
  rw [unvis, Finset.mem_filter] at hc ⊢
  refine ⟨hc.1, ?_⟩
  rcases how c.2 c.1 with hh | hh
  · rw [← hh]
    exact hc.2
  · rw [hc.2] at hh
    exact absurd hh.symm (by norm_num)

theorem unvis_card_lt {w h : ℤ} {m m' : Grid} {x y : ℤ}
    (hmem : (x, y) ∈ unvis w h m) (h1 : m' y x = 1)
    (how : OnlyWrites1 m m') :
    (unvis w h m').card < (unvis w h m).card := by
  have hsub : unvis w h m' ⊆ (unvis w h m).erase (x, y) := by
    intro c hc
    rw [Finset.mem_erase]
    refine ⟨?_, unvis_subset how hc⟩
    rintro rfl
    rw [unvis, Finset.mem_filter] at hc
    rw [h1] at hc
    exact absurd hc.2 (by norm_num)
  calc (unvis w h m').card ≤ ((unvis w h m).erase (x, y)).card :=
        Finset.card_le_card hsub
    _ < (unvis w h m).card :=
        Finset.card_erase_lt_of_mem hmem

theorem shuffle_dirs4_eq (rng : ℕ → ℕ) (c : ℕ) :
    (shuffle rng c dirs4).1 =
      swapL (swapL (swapL dirs4 3 (rng c % 4) (0, 0)) 2 (rng (c + 1) % 3)
        (0, 0)) 1 (rng (c + 2) % 2) (0, 0) := rfl

theorem swap_chain_subset1 (j1 j2 j3 : ℕ) (h1 : j1 < 4) (h2 : j2 < 3)
    (h3 : j3 < 2) :
    ∀ d ∈ dirs4, d ∈ swapL (swapL (swapL dirs4 3 j1 (0, 0)) 2 j2 (0, 0)) 1
      j3 (0, 0) := by
  interval_cases j1 <;> interval_cases j2 <;> interval_cases j3 <;> decide

theorem swap_chain_subset2 (j1 j2 j3 : ℕ) (h1 : j1 < 4) (h2 : j2 < 3)
    (h3 : j3 < 2) :
    ∀ d ∈ swapL (swapL (swapL dirs4 3 j1 (0, 0)) 2 j2 (0, 0)) 1 j3 (0, 0),
      d ∈ dirs4 := by
  interval_cases j1 <;> interval_cases j2 <;> interval_cases j3 <;> decide

theorem shuffle_dirs4_mem (rng : ℕ → ℕ) (c : ℕ) (d : ℤ × ℤ) :
    d ∈ (shuffle rng c dirs4).1 ↔ d ∈ dirs4 := by
  rw [shuffle_dirs4_eq]
  constructor
  · exact fun hd => swap_chain_subset2 (rng c % 4) (rng (c + 1) % 3)
      (rng (c + 2) % 2) (Nat.mod_lt _ (by norm_num))
      (Nat.mod_lt _ (by norm_num)) (Nat.mod_lt _ (by norm_num)) d hd
  · exact fun hd => swap_chain_subset1 (rng c % 4) (rng (c + 1) % 3)
      (rng (c + 2) % 2) (Nat.mod_lt _ (by norm_num))
      (Nat.mod_lt _ (by norm_num)) (Nat.mod_lt _ (by norm_num)) d hd

end MG

namespace MG

theorem dir_facts (d : ℤ × ℤ) (hd : d ∈ dirs4) (x y : ℤ) (hx : x % 2 = 1)
    (hy : y % 2 = 1) :
    (x + d.1) % 2 = 1 ∧ (y + d.2) % 2 = 1 ∧
    ¬((x + d.1 / 2) % 2 = 1 ∧ (y + d.2 / 2) % 2 = 1) ∧
    ¬(y + d.2 = y + d.2 / 2 ∧ x + d.1 = x + d.1 / 2) ∧
    adjacent (x, y) (x + d.1 / 2, y + d.2 / 2) ∧
    adjacent (x + d.1 / 2, y + d.2 / 2) (x + d.1, y + d.2) := by
  fin_cases hd <;> norm_num [adjacent] <;> omega

theorem rbGo_spec (w h : ℤ) (rng : ℕ → ℕ) (n : ℕ) (hIH : RbSpec w h rng n) :
    ∀ (ds : List (ℤ × ℤ)), (∀ d ∈ ds, d ∈ dirs4) →
    ∀ (mB m : Grid) (c : ℕ) (x y : ℤ),
    (x, y) ∈ latticeF w h → mB y x = 0 →
    (∀ b a, mB b a = 0 ∨ mB b a = 1) →
    (unvis w h mB).card ≤ n + 1 →
    Mono1 (setCell mB x y 1) m → OnlyWrites1 mB m → InvConn m →
    (∀ p : ℤ × ℤ, p ∈ latticeF w h → m p.2 p.1 = 1 → mB p.2 p.1 = 0 →
      p ≠ (x, y) → ∀ d ∈ dirs4, (p.1 + d.1, p.2 + d.2) ∈ latticeF w h →
      m (p.2 + d.2) (p.1 + d.1) = 1) →
    Mono1 m (rbGo w h rng n ds m c x y).1 ∧
    OnlyWrites1 m (rbGo w h rng n ds m c x y).1 ∧
    InvConn (rbGo w h rng n ds m c x y).1 ∧
    (∀ p : ℤ × ℤ, p ∈ latticeF w h →
      (rbGo w h rng n ds m c x y).1 p.2 p.1 = 1 → mB p.2 p.1 = 0 →
      p ≠ (x, y) → ∀ d ∈ dirs4, (p.1 + d.1, p.2 + d.2) ∈ latticeF w h →
      (rbGo w h rng n ds m c x y).1 (p.2 + d.2) (p.1 + d.1) = 1) ∧
    (∀ d ∈ ds, (x + d.1, y + d.2) ∈ latticeF w h →
      (rbGo w h rng n ds m c x y).1 (y + d.2) (x + d.1) = 1) := by
  intro ds
  induction ds with
  | nil =>
    intro _ mB m c x y _ _ _ _ _ _ hconn hcl
    simp only [rbGo]
    exact ⟨mono1_refl m, ow_refl m, hconn, hcl,
      fun d hd => absurd hd (List.not_mem_nil d)⟩
  | cons d ds ih =>
    intro hsub mB m c x y hlat hmB0 hbinB hcard hmono how hconn hcl
    have hd : d ∈ dirs4 := hsub d (List.mem_cons_self d ds)
    have hsub' : ∀ d' ∈ ds, d' ∈ dirs4 :=
      fun d' hd' => hsub d' (List.mem_cons_of_mem d hd')
    obtain ⟨hx1, hxw, hy1, hyh, hxp, hyp⟩ := mem_latticeF.mp hlat
    obtain ⟨hnpx, hnpy, hwallpar, hwallne, hadj1, hadj2⟩ :=
      dir_facts d hd x y hxp hyp
    have hxy1 : m y x = 1 := hmono y x (setCell_same mB x y 1)
    have hbin : ∀ b a, m b a = 0 ∨ m b a = 1 := binary_of_ow hbinB how
    simp only [rbGo]
    by_cases hcond : isValidC w h (x + d.1) (y + d.2) ∧ m (y + d.2) (x + d.1) = 0
    · rw [if_pos hcond]
      have hnlat : (x + d.1, y + d.2) ∈ latticeF w h := by
        obtain ⟨v1, v2, v3, v4⟩ := hcond.1
        exact mem_latticeF.mpr ⟨by omega, by omega, by omega, by omega,
          hnpx, hnpy⟩
      have hmono_m_m1 : Mono1 m (setCell m (x + d.1 / 2) (y + d.2 / 2) 1) :=
        mono1_setCell1 m (x + d.1 / 2) (y + d.2 / 2)
      have how_m_m1 : OnlyWrites1 m (setCell m (x + d.1 / 2) (y + d.2 / 2) 1) :=
        ow_setCell1 m (x + d.1 / 2) (y + d.2 / 2)
      have hm1n0 : setCell m (x + d.1 / 2) (y + d.2 / 2) 1 (y + d.2)
          (x + d.1) = 0 := by
        rw [setCell_ne _ _ _ _ _ _ hwallne]
        exact hcond.2
      have hbin1 : ∀ b a, setCell m (x + d.1 / 2) (y + d.2 / 2) 1 b a = 0 ∨
          setCell m (x + d.1 / 2) (y + d.2 / 2) 1 b a = 1 :=
        binary_of_ow hbin how_m_m1
      have hcard1 : (unvis w h (setCell m (x + d.1 / 2) (y + d.2 / 2) 1)).card
          ≤ n := by
        have hmm : (x, y) ∈ unvis w h mB := by
          rw [unvis, Finset.mem_filter]
          exact ⟨hlat, hmB0⟩
        have hlt := unvis_card_lt hmm
          (show setCell m (x + d.1 / 2) (y + d.2 / 2) 1 y x = 1 from
            hmono_m_m1 y x hxy1)
          (ow_trans how how_m_m1)
        omega
      have hconn1 : InvConn (setCell (setCell m (x + d.1 / 2) (y + d.2 / 2) 1)
          (x + d.1) (y + d.2) 1) := by
        apply invconn_extend (a := (x + d.1 / 2, y + d.2 / 2))
          (b := (x + d.1, y + d.2))
        · exact invconn_extend (a := (x, y)) (b := (x + d.1 / 2, y + d.2 / 2))
            hconn hxy1 hadj1
        · exact setCell_same ..
        · exact hadj2
      obtain ⟨rmono, row, rconn, rclos⟩ := hIH
        (setCell m (x + d.1 / 2) (y + d.2 / 2) 1) c (x + d.1) (y + d.2)
        hnlat hm1n0 hbin1 hcard1 hconn1
      have hmono_m_r0 : Mono1 m (rb w h rng n
          (setCell m (x + d.1 / 2) (y + d.2 / 2) 1) c (x + d.1) (y + d.2)).1 :=
        mono1_trans hmono_m_m1 (mono1_trans (mono1_setCell1 _ (x + d.1)
          (y + d.2)) rmono)
      have how_m_r0 : OnlyWrites1 m (rb w h rng n
          (setCell m (x + d.1 / 2) (y + d.2 / 2) 1) c (x + d.1) (y + d.2)).1 :=
        ow_trans how_m_m1 row
      have hmono2 : Mono1 (setCell mB x y 1) (rb w h rng n
          (setCell m (x + d.1 / 2) (y + d.2 / 2) 1) c (x + d.1) (y + d.2)).1 :=
        mono1_trans hmono hmono_m_r0
      have how2 : OnlyWrites1 mB (rb w h rng n
          (setCell m (x + d.1 / 2) (y + d.2 / 2) 1) c (x + d.1) (y + d.2)).1 :=
        ow_trans how how_m_r0
      have hcl2 : ∀ p : ℤ × ℤ, p ∈ latticeF w h →
          (rb w h rng n (setCell m (x + d.1 / 2) (y + d.2 / 2) 1) c (x + d.1)
            (y + d.2)).1 p.2 p.1 = 1 →
          mB p.2 p.1 = 0 → p ≠ (x, y) → ∀ d' ∈ dirs4,
          (p.1 + d'.1, p.2 + d'.2) ∈ latticeF w h →
          (rb w h rng n (setCell m (x + d.1 / 2) (y + d.2 / 2) 1) c (x + d.1)
            (y + d.2)).1 (p.2 + d'.2) (p.1 + d'.1) = 1 := by
        intro p hplat hp1 hpB0 hpne d' hd' hnlat'
        by_cases hpm1 : setCell m (x + d.1 / 2) (y + d.2 / 2) 1 p.2 p.1 = 0
        · exact rclos p hplat hp1 hpm1 d' hd' hnlat'
        · have hpm1' : setCell m (x + d.1 / 2) (y + d.2 / 2) 1 p.2 p.1 = 1 :=
            (hbin1 p.2 p.1).resolve_left hpm1
          rcases carved_setCell hpm1' with hpw | hpm
          · exfalso
            obtain ⟨_, _, _, _, pp1, pp2⟩ := mem_latticeF.mp hplat
            rw [hpw] at pp1 pp2
            exact hwallpar ⟨pp1, pp2⟩
          · exact hmono_m_r0 _ _ (hcl p hplat hpm hpB0 hpne d' hd' hnlat')
      have hnbr_carved : (rb w h rng n (setCell m (x + d.1 / 2) (y + d.2 / 2)
          1) c (x + d.1) (y + d.2)).1 (y + d.2) (x + d.1) = 1 :=
        rmono _ _ (setCell_same ..)
      obtain ⟨fmono, fow, fconn, fcl, fdirs⟩ := ih hsub' mB
        (rb w h rng n (setCell m (x + d.1 / 2) (y + d.2 / 2) 1) c (x + d.1)
          (y + d.2)).1
        (rb w h rng n (setCell m (x + d.1 / 2) (y + d.2 / 2) 1) c (x + d.1)
          (y + d.2)).2
        x y hlat hmB0 hbinB hcard hmono2 how2 rconn hcl2
      refine ⟨mono1_trans hmono_m_r0 fmono, ow_trans how_m_r0 fow, fconn,
        fcl, ?_⟩
      intro d' hd' hnl'
      rcases List.mem_cons.mp hd' with heq | hd'mem
      · subst heq
        exact fmono _ _ hnbr_carved
      · exact fdirs d' hd'mem hnl'
    · rw [if_neg hcond]
      have hne0 : ¬ ((x + d.1, y + d.2) ∈ latticeF w h) ∨
          m (y + d.2) (x + d.1) = 1 := by
        by_cases hval : isValidC w h (x + d.1) (y + d.2)
        · right
          have hnz : ¬ m (y + d.2) (x + d.1) = 0 :=
            fun hzz => hcond ⟨hval, hzz⟩
          exact (hbin _ _).resolve_left hnz
        · left
          intro hmem
          obtain ⟨a1, a2, a3, a4, _, _⟩ := mem_latticeF.mp hmem
          exact hval ⟨by omega, by omega, by omega, by omega⟩
      obtain ⟨fmono, fow, fconn, fcl, fdirs⟩ := ih hsub' mB m c x y hlat
        hmB0 hbinB hcard hmono how hconn hcl
      refine ⟨fmono, fow, fconn, fcl, ?_⟩
      intro d' hd' hnl'
      rcases List.mem_cons.mp hd' with heq | hd'mem
      · subst heq
        rcases hne0 with hno | hcar
        · exact absurd hnl' hno
        · exact fmono _ _ hcar
      · exact fdirs d' hd'mem hnl'

end MG

namespace MG

theorem rb_spec (w h : ℤ) (rng : ℕ → ℕ) : ∀ fuel, RbSpec w h rng fuel := by
  intro fuel
  induction fuel with
  | zero =>
    intro m c x y hlat hm0 _ hcard _
    exfalso
    have hmm : (x, y) ∈ unvis w h m := by
      rw [unvis, Finset.mem_filter]
      exact ⟨hlat, hm0⟩
    have hpos := Finset.card_pos.mpr ⟨(x, y), hmm⟩
    omega
  | succ n IHn =>
    intro m c x y hlat hm0 hbin hcard hconn
    have hunf : rb w h rng (n + 1) m c x y =
        rbGo w h rng n (shuffle rng c dirs4).1 (setCell m x y 1)
          (shuffle rng c dirs4).2 x y := by
      simp only [rb]
    rw [hunf]
    have hsub : ∀ d ∈ (shuffle rng c dirs4).1, d ∈ dirs4 :=
      fun d hd => (shuffle_dirs4_mem rng c d).mp hd
    have hclinit : ∀ p : ℤ × ℤ, p ∈ latticeF w h →
        setCell m x y 1 p.2 p.1 = 1 → m p.2 p.1 = 0 → p ≠ (x, y) →
        ∀ d ∈ dirs4, (p.1 + d.1, p.2 + d.2) ∈ latticeF w h →
        setCell m x y 1 (p.2 + d.2) (p.1 + d.1) = 1 := by
      intro p _ hp1 hp0 hpne d' _ _
      exfalso
      rcases carved_setCell hp1 with hpeq | hpm
      · exact hpne hpeq
      · rw [hp0] at hpm
        exact absurd hpm (by norm_num)
    obtain ⟨gmono, gow, gconn, gcl, gdirs⟩ := rbGo_spec w h rng n IHn
      (shuffle rng c dirs4).1 hsub m (setCell m x y 1)
      (shuffle rng c dirs4).2 x y hlat hm0 hbin hcard (mono1_refl _)
      (ow_setCell1 m x y) hconn hclinit
    refine ⟨gmono, ow_trans (ow_setCell1 m x y) gow, gconn, ?_⟩
    intro p hplat hp1 hp0 d' hd' hnl
    by_cases hpxy : p = (x, y)
    · subst hpxy
      exact gdirs d' ((shuffle_dirs4_mem rng c d').mpr hd') hnl
    · exact gcl p hplat hp1 hp0 hpxy d' hd' hnl

theorem lat_reach (w h : ℤ) : ∀ (k : ℕ) (c : ℤ × ℤ), c ∈ latticeF w h →
    (c.1 + c.2).toNat ≤ k →
    Relation.ReflTransGen (LatStep w h) (1, 1) c := by
  intro k
  induction k with
  | zero =>
    intro c hc hle
    obtain ⟨h1, _, h2, _, _, _⟩ := mem_latticeF.mp hc
    omega
  | succ k IH =>
    intro c hc hle
    obtain ⟨hx1, hxw, hy1, hyh, hxp, hyp⟩ := mem_latticeF.mp hc
    by_cases hx3 : 3 ≤ c.1
    · have hprev : (c.1 - 2, c.2) ∈ latticeF w h :=
        mem_latticeF.mpr ⟨by omega, by omega, by omega, by omega, by omega,
          by omega⟩
      refine Relation.ReflTransGen.tail (IH (c.1 - 2, c.2) hprev (by omega))
        ?_
      refine ⟨hprev, hc, (2, 0), by decide, by norm_num, by norm_num⟩
    · have hx1' : c.1 = 1 := by omega
      by_cases hy3 : 3 ≤ c.2
      · have hprev : (c.1, c.2 - 2) ∈ latticeF w h :=
          mem_latticeF.mpr ⟨by omega, by omega, by omega, by omega, by omega,
            by omega⟩
        refine Relation.ReflTransGen.tail (IH (c.1, c.2 - 2) hprev
          (by omega)) ?_
        refine ⟨hprev, hc, (0, 2), by decide, by norm_num, by norm_num⟩
      · have hy1' : c.2 = 1 := by omega
        have hceq : c = ((1 : ℤ), (1 : ℤ)) := Prod.ext hx1' hy1'
        rw [hceq]

theorem generate_spec (w h : ℕ) (rng : ℕ → ℕ) (hw : 3 ≤ w) (hh : 3 ≤ h) :
    generate w h rng 1 1 = 1 ∧ InvConn (generate w h rng) ∧
    (∀ c : ℤ × ℤ, c ∈ latticeF (w : ℤ) (h : ℤ) →
      generate w h rng c.2 c.1 = 1) := by
  have h11 : ((1 : ℤ), (1 : ℤ)) ∈ latticeF (w : ℤ) (h : ℤ) :=
    mem_latticeF.mpr ⟨by omega, by omega, by omega, by omega, by omega,
      by omega⟩
  have hcard : (unvis (w : ℤ) (h : ℤ) (fun _ _ => 0)).card ≤ w * h := by
    have hsub : unvis (w : ℤ) (h : ℤ) (fun _ _ => 0) ⊆
        (Finset.Ico (1 : ℤ) ((w : ℤ) - 1)) ×ˢ
          (Finset.Ico (1 : ℤ) ((h : ℤ) - 1)) := by
      intro c hc
      rw [unvis, Finset.mem_filter] at hc
      have hc1 := hc.1
      rw [latticeF, Finset.mem_filter] at hc1
      exact hc1.1
    calc (unvis (w : ℤ) (h : ℤ) (fun _ _ => 0)).card
        ≤ ((Finset.Ico (1 : ℤ) ((w : ℤ) - 1)) ×ˢ
            (Finset.Ico (1 : ℤ) ((h : ℤ) - 1))).card :=
          Finset.card_le_card hsub
      _ = (Finset.Ico (1 : ℤ) ((w : ℤ) - 1)).card *
            (Finset.Ico (1 : ℤ) ((h : ℤ) - 1)).card := Finset.card_product ..
      _ ≤ w * h := by
          rw [Int.card_Ico, Int.card_Ico]
          exact Nat.mul_le_mul (by omega) (by omega)
  have hconninit : InvConn (setCell (fun _ _ => 0) 1 1 1) := by
    intro c hc
    rcases carved_setCell hc with hceq | hcm
    · rw [hceq]
      exact Relation.ReflTransGen.refl
    · exact absurd hcm (by simp)
  obtain ⟨gmono, gow, gconn, gcl⟩ := rb_spec (w : ℤ) (h : ℤ) rng (w * h)
    (fun _ _ => 0) 0 1 1 h11 rfl (fun _ _ => Or.inl rfl) hcard hconninit
  have hgen : generate w h rng =
      (rb (w : ℤ) (h : ℤ) rng (w * h) (fun _ _ => 0) 0 1 1).1 := rfl
  have hcarved11 : generate w h rng 1 1 = 1 := by
    rw [hgen]
    exact gmono 1 1 (setCell_same _ 1 1 1)
  refine ⟨hcarved11, by rw [hgen]; exact gconn, ?_⟩
  intro c hc
  have hreach := lat_reach (w : ℤ) (h : ℤ) ((c.1 + c.2).toNat) c hc
    (le_refl _)
  clear hc
  induction hreach with
  | refl => exact hcarved11
  | tail hab hstep ihc =>
    obtain ⟨halat, hblat, d, hd, hb1, hb2⟩ := hstep
    rw [hgen]
    rw [hgen] at ihc
    have hnb := gcl _ halat ihc rfl d hd (by
      rw [show (_ + d.1, _ + d.2) = (_ + d.1, _ + d.2) from rfl]
      rw [← hb1, ← hb2]
      exact hblat)
    rw [← hb1, ← hb2] at hnb
    exact hnb

/-- Claim C1: for every maze returned by the recursive-backtracking
generator with odd size at least 15 and any random source, the start cell
`(1, 1)` is EMPTY and there is a path of EMPTY cells, stepping only between
orthogonally adjacent cells, from the start cell to the end cell
`(size - 2, size - 2)` used by `GameRoom`. -/
theorem C1_maze_start_end_path (n : ℕ) (rng : ℕ → ℕ) (hodd : n % 2 = 1)
    (hn : 15 ≤ n) :
    generate n n rng 1 1 = 1 ∧
    ReachEmpty (generate n n rng) (1, 1) ((n : ℤ) - 2, (n : ℤ) - 2) := by
  obtain ⟨h11, hconn, hcov⟩ := generate_spec n n rng (by omega) (by omega)
  have hend : (((n : ℤ) - 2), ((n : ℤ) - 2)) ∈ latticeF (n : ℤ) (n : ℤ) :=
    mem_latticeF.mpr ⟨by omega, by omega, by omega, by omega, by omega,
      by omega⟩
  exact ⟨h11, hconn _ (hcov _ hend)⟩

/-- Witness for C1 at size 15 with the constant random source. -/
theorem C1_witness :
    15 % 2 = 1 ∧ 15 ≤ 15 ∧
    (generate 15 15 (fun _ => 0) 1 1 = 1 ∧
      ReachEmpty (generate 15 15 (fun _ => 0)) (1, 1)
        (((15 : ℕ) : ℤ) - 2, ((15 : ℕ) : ℤ) - 2)) :=
  ⟨by decide, by decide, C1_maze_start_end_path 15 (fun _ => 0) (by decide)
    (by decide)⟩

end MG
